import Mathlib

/-!
Verification development for the IVALIDATE repository: a shallow embedding of
its scoring engine, pipeline orchestrator, record store and AI-response parser,
with theorems about the behaviour of each component.

Conventions: JS numbers are modelled as `ℚ` where the source can produce
fractional values and as `ℤ` where it only produces integers; `Math.round`
is `jsRound` (floor of x + 1/2, which is JS round-half-toward-+∞); strings that
undergo character-level processing are `List Char`, other strings are `String`.
-/

set_option linter.unusedVariables false

namespace IValidate

/-- JS `Math.round`: rounds half toward positive infinity. -/
def jsRound (q : ℚ) : ℤ := ⌊q + 1/2⌋

/-- JS `String.prototype.includes pat` on a `List Char`. -/
def containsSub (pat : List Char) : List Char → Bool
  | [] => pat.isEmpty
  | c :: rest => pat.isPrefixOf (c :: rest) || containsSub pat rest

/-- Test for the regex `/\$\d+/`: a dollar sign immediately followed by a digit. -/
def hasDollarDigit : List Char → Bool
  | [] => false
  | [_] => false
  | '$' :: c :: rest => c.isDigit || hasDollarDigit (c :: rest)
  | _ :: rest => hasDollarDigit rest

/-- JS `toLowerCase` (ASCII fragment). -/
def lowerStr (s : List Char) : List Char := s.map Char.toLower

/-! ## Scoring engine — model of `src/lib/scoring/real-validation-scorer.ts` -/

inductive Sentiment
  | frustrated
  | neutral
  | satisfied
deriving DecidableEq, Repr

structure TopQuote where
  quote : List Char
  author : List Char
  subreddit : List Char
  upvotes : ℤ
  sentiment : Sentiment
deriving DecidableEq, Repr

structure RealData where
  totalMentions : ℤ
  frustratedUsers : ℤ
  neutralUsers : ℤ
  satisfiedUsers : ℤ
  topQuotes : List TopQuote
deriving DecidableEq, Repr

/-- The fields of `RedditInsight` that the scorer reads. -/
structure RedditInsight where
  engagementLevel : ℚ
  realData : Option RealData
deriving DecidableEq, Repr

structure MarketDemandDetails where
  mentionCount : ℤ
  frustrationLevel : ℤ
  severityScore : ℤ
  engagementScore : ℚ
deriving DecidableEq, Repr

structure MarketDemand where
  score : ℤ
  details : MarketDemandDetails
deriving DecidableEq, Repr

structure CompetitionDetails where
  competitorMentions : ℤ
  userComplaints : ℤ
  opportunityGaps : ℤ
deriving DecidableEq, Repr

structure Competition where
  score : ℤ
  details : CompetitionDetails
deriving DecidableEq, Repr

inductive Grade
  | A
  | Bp
  | B
  | C
  | D
  | F
deriving DecidableEq, Repr

structure Overall where
  score : ℤ
  grade : Grade
  confidence : ℤ
deriving DecidableEq, Repr

structure RealValidationScores where
  marketDemand : MarketDemand
  competition : Competition
  overall : Overall
deriving DecidableEq, Repr

/-- Mention-count tier (0–30 points), lines 48–56 of the scorer. -/
def mentionScoreOf (totalMentions : ℤ) : ℤ :=
  if totalMentions ≥ 100 then 30
  else if totalMentions ≥ 50 then 26
  else if totalMentions ≥ 25 then 22
  else if totalMentions ≥ 15 then 18
  else if totalMentions ≥ 10 then 14
  else if totalMentions ≥ 5 then 10
  else if totalMentions ≥ 1 then 6
  else 0

/-- Frustration-percentage tier (0–35 points), lines 59–67. -/
def frustrationScoreOf (p : ℚ) : ℤ :=
  if p ≥ 70 then 35
  else if p ≥ 50 then 28
  else if p ≥ 35 then 22
  else if p ≥ 25 then 16
  else if p ≥ 15 then 12
  else if p ≥ 10 then 8
  else 4

/-- The `highSeverityKeywords` list, lines 71–74. -/
def highSeverityKeywords : List (List Char) :=
  ["$".toList, "cost".toList, "expensive".toList, "waste".toList,
   "hours".toList, "days".toList, "months".toList, "fortune".toList,
   "thousand".toList, "million".toList, "losing money".toList,
   "time consuming".toList]

/-- One quote's contribution to `(severityScore, severityMentions)`:
the inner `forEach` over `highSeverityKeywords`, lines 80–92. -/
def severityAccum (acc : ℤ × ℤ) (q : TopQuote) : ℤ × ℤ :=
  let quoteText := lowerStr q.quote
  highSeverityKeywords.foldl
    (fun a kw =>
      if containsSub kw quoteText then
        (a.1 + (if hasDollarDigit quoteText then 5 else 0)
             + (if containsSub "thousand".toList quoteText
                  || containsSub "k ".toList quoteText then 3 else 0)
             + (if containsSub "hours".toList quoteText
                  || containsSub "days".toList quoteText then 2 else 0),
         a.2 + 1)
      else a) acc

/-- The `forEach` over `topQuotes` accumulating severity score and mention
count, lines 76–93 (`(severityScore increments, severityMentions)`). -/
def severityCounts (quotes : List TopQuote) : ℤ × ℤ :=
  quotes.foldl severityAccum (0, 0)

/-- Engagement score (0–10 points), lines 98–99. -/
def engagementScoreOf (avgUpvotes : ℚ) : ℚ :=
  min (avgUpvotes * (1/2)) 10

/-- `calculateMarketDemandScore`, lines 29–114. -/
def calculateMarketDemandScore (redditData : RedditInsight) : MarketDemand :=
  match redditData.realData with
  | none => ⟨15, ⟨0, 0, 0, 0⟩⟩
  | some rd =>
    if rd.totalMentions = 0 then ⟨15, ⟨0, 0, 0, 0⟩⟩
    else
      let mentionScore := mentionScoreOf rd.totalMentions
      let frustrationPercentage : ℚ :=
        (rd.frustratedUsers : ℚ) / (rd.totalMentions : ℚ) * 100
      let frustrationScore := frustrationScoreOf frustrationPercentage
      let sev := severityCounts rd.topQuotes
      let severityScore : ℤ := min (sev.1 + sev.2 * 2) 25
      let engagementScore := engagementScoreOf redditData.engagementLevel
      let totalScore : ℤ :=
        jsRound ((mentionScore : ℚ) + (frustrationScore : ℚ)
          + (severityScore : ℚ) + engagementScore)
      ⟨min totalScore 100, ⟨mentionScore, frustrationScore, severityScore, engagementScore⟩⟩

/-- The `competitorKeywords` list, lines 128–131. -/
def competitorKeywords : List (List Char) :=
  ["competitor".toList, "alternative".toList, "better than".toList,
   "instead of".toList, "compared to".toList, "switch from".toList,
   "disappointed with".toList, "doesn\x27t work".toList, "broken".toList,
   "unreliable".toList]

/-- One quote's contribution to
`(competitorMentions, userComplaints, opportunityGaps)`, lines 133–154. -/
def quoteCountsAccum (acc : ℤ × ℤ × ℤ) (q : TopQuote) : ℤ × ℤ × ℤ :=
  let quoteText := lowerStr q.quote
  let cm := if competitorKeywords.any (fun kw => containsSub kw quoteText)
            then acc.1 + 1 else acc.1
  let uc := if q.sentiment == Sentiment.frustrated
               && (containsSub "current".toList quoteText
                   || containsSub "existing".toList quoteText
                   || containsSub "using".toList quoteText)
            then acc.2.1 + 1 else acc.2.1
  let og := if containsSub "wish there was".toList quoteText
               || containsSub "need something".toList quoteText
               || containsSub "looking for".toList quoteText
               || containsSub "anyone know".toList quoteText
            then acc.2.2 + 1 else acc.2.2
  (cm, uc, og)

/-- Competitor-percentage tier (0–40 points), lines 161–168. -/
def competitorScoreOf (p : ℚ) : ℤ :=
  if p ≤ 3 then 40
  else if p ≤ 8 then 34
  else if p ≤ 15 then 28
  else if p ≤ 25 then 22
  else if p ≤ 40 then 16
  else if p ≤ 60 then 10
  else 5

/-- User-complaint tier (0–35 points), lines 171–177. -/
def complaintScoreOf (n : ℤ) : ℤ :=
  if n ≥ 10 then 35
  else if n ≥ 7 then 30
  else if n ≥ 5 then 25
  else if n ≥ 3 then 20
  else if n ≥ 1 then 15
  else 8

/-- Opportunity-gap tier (0–25 points), lines 180–185. -/
def gapScoreOf (n : ℤ) : ℤ :=
  if n ≥ 8 then 25
  else if n ≥ 5 then 20
  else if n ≥ 3 then 15
  else if n ≥ 1 then 10
  else 5

/-- `calculateCompetitionScore`, lines 119–199. -/
def calculateCompetitionScore (redditData : RedditInsight) : Competition :=
  let counts : ℤ × ℤ × ℤ :=
    match redditData.realData with
    | some rd => rd.topQuotes.foldl quoteCountsAccum (0, 0, 0)
    | none => (0, 0, 0)
  let totalMentions : ℤ :=
    match redditData.realData with
    | some rd => rd.totalMentions
    | none => 0
  let competitorPercentage : ℚ :=
    if totalMentions > 0 then ((counts.1 : ℚ) / (totalMentions : ℚ)) * 100 else 0
  let competitorScore := competitorScoreOf competitorPercentage
  let complaintScore := complaintScoreOf counts.2.1
  let gapScore := gapScoreOf counts.2.2
  let totalScore : ℤ := jsRound ((competitorScore : ℚ) + (complaintScore : ℚ) + (gapScore : ℚ))
  ⟨min totalScore 100, ⟨counts.1, counts.2.1, counts.2.2⟩⟩

/-- `calculateDataQuality`, lines 246–277. -/
def calculateDataQuality (redditData : RedditInsight) : ℤ :=
  match redditData.realData with
  | some rd =>
    if rd.totalMentions > 0 then
      let q2 : ℤ :=
        if rd.totalMentions ≥ 100 then 30
        else if rd.totalMentions ≥ 50 then 25
        else if rd.totalMentions ≥ 25 then 20
        else if rd.totalMentions ≥ 15 then 15
        else if rd.totalMentions ≥ 10 then 10
        else 5
      let q3 : ℤ :=
        if rd.topQuotes.length ≥ 15 then 15
        else if rd.topQuotes.length ≥ 10 then 12
        else if rd.topQuotes.length ≥ 5 then 8
        else 3
      let q4 : ℤ := if rd.frustratedUsers > 0 then 10 else 0
      let q5 : ℤ :=
        if redditData.engagementLevel ≥ 15 then 15
        else if redditData.engagementLevel ≥ 8 then 10
        else if redditData.engagementLevel ≥ 3 then 5
        else 0
      min (30 + q2 + q3 + q4 + q5) 100
    else 10
  | none => 10

/-- The grade threshold table, lines 222–228 (also `getGradeFromScore` in
`src/lib/utils.ts`). `Bp` renders the source's `'B+'`. -/
def gradeOf (s : ℤ) : Grade :=
  if s ≥ 90 then .A
  else if s ≥ 80 then .Bp
  else if s ≥ 70 then .B
  else if s ≥ 60 then .C
  else if s ≥ 50 then .D
  else .F

/-- `calculateRealValidationScore`, lines 202–244. -/
def calculateRealValidationScore (redditData : RedditInsight) : RealValidationScores :=
  let marketDemand := calculateMarketDemandScore redditData
  let competition := calculateCompetitionScore redditData
  let weightedScore : ℚ :=
    (marketDemand.score : ℚ) * (60/100) + (competition.score : ℚ) * (40/100)
  let overallScore := jsRound weightedScore
  ⟨marketDemand, competition,
   ⟨overallScore, gradeOf overallScore, calculateDataQuality redditData⟩⟩

end IValidate

namespace IValidate

/-! ## Concrete inputs used by witnesses and counterexamples -/

/-- A `RedditInsight` with one mention, no quotes, and a *negative* average
upvote count (`engagementLevel`), as can arise from downvoted posts: the
engagement tier `min(avgUpvotes * 0.5, 10)` is then unboundedly negative. -/
def ceC1 : RedditInsight :=
  { engagementLevel := -100,
    realData := some { totalMentions := 1, frustratedUsers := 0, neutralUsers := 0,
                       satisfiedUsers := 0, topQuotes := [] } }

/-- A `RedditInsight` with no collected data at all. -/
def zeroC1 : RedditInsight := { engagementLevel := 0, realData := none }

end IValidate

namespace IValidate

/-! ## Shared string utilities (JS semantics on `List Char`) -/

/-- JS whitespace (ASCII fragment) recognised by `String.prototype.trim`. -/
def isJsWs (c : Char) : Bool :=
  c == ' ' || c == '\t' || c == '\n' || c == '\r' || c == '\x0b' || c == '\x0c'

/-- JS `String.prototype.trim`. -/
def jsTrim (s : List Char) : List Char :=
  ((s.dropWhile isJsWs).reverse.dropWhile isJsWs).reverse

/-- JS `s.endsWith (String.fromCharCode c)`: the last character is `c`. -/
def lastIs (l : List Char) (c : Char) : Bool :=
  l.getLast? == some c

/-! ## Pipeline record types — model of `ProcessingStep` /
`ValidationRequest` in `src/types/validation.ts` (the fields the orchestrator
and store touch) -/

inductive StepStatus
  | pending
  | processing
  | completed
  | failed
deriving DecidableEq, Repr

structure PStep where
  step : ℕ
  title : String
  description : String
  progress : ℕ
  status : StepStatus
  dataFound : Option ℕ
deriving DecidableEq, Repr

inductive RStatus
  | PENDING
  | PROCESSING
  | COMPLETED
  | FAILED
deriving DecidableEq, Repr

/-- The persisted run record (the fields of `ValidationRequest` that the
orchestrator mutates and the claims mention). -/
structure ValidationRec where
  id : String
  status : RStatus
  progress : ℕ
  currentStep : String
  errorMessage : Option String
  psteps : List PStep
deriving DecidableEq, Repr

/-! ## RecordStore — model of `src/lib/storage/json.ts`

`fs.readFile` outcomes are supplied per attempt by a `reads` function so that
transient file states (racing writer) are expressible.  `JSON.parse` /
`JSON.stringify` are platform builtins and are passed in as parameters
(`parse` returning `none` models a `JSON.parse` throw).  `setTimeout(100)`
between attempts is recorded as a `delay 100` event. -/

inductive ReadOutcome
  | enoent
  | ioError
  | content (s : List Char)

inductive LoadResult (R : Type)
  | notFound
  | ok (r : R)
  | threw
deriving DecidableEq, Repr

inductive LoadEvent
  | readAttempt (n : ℕ)
  | delay (ms : ℕ)
deriving DecidableEq, Repr

/-- One non-final iteration of `loadValidation`'s retry loop
(`for (attempt = 0; attempt < 3; ...)`, lines 47–110 of `json.ts`): `none`
means the iteration hit `continue` (retry after the 100 ms delay).  A missing
file returns the null/not-found result immediately; an empty or unparseable
body retries. -/
def loadTry {R : Type} (parse : List Char → Option R) : ReadOutcome → Option (LoadResult R)
  | .enoent => some .notFound
  | .ioError => none
  | .content s =>
    if jsTrim s = [] then none
    else
      match parse s with
      | some r => some (.ok r)
      | none => none

/-- The final iteration (`attempt === 2`): an empty body returns null; a parse
failure tries the trailing-comma repair, then returns null when the body does
not end in `}`, and otherwise falls through to
`throw new Error('Failed to load validation data after multiple attempts')`
(modelled as `threw`). -/
def loadLast {R : Type} (parse : List Char → Option R) : ReadOutcome → LoadResult R
  | .enoent => .notFound
  | .ioError => .threw
  | .content s =>
    if jsTrim s = [] then .notFound
    else
      match parse s with
      | some r => .ok r
      | none =>
        let trimmed := jsTrim s
        if lastIs trimmed ',' then
          match parse (trimmed.dropLast ++ ['}']) with
          | some r => .ok r
          | none => .threw
        else if lastIs trimmed '}' then .threw
        else .notFound

/-- `loadValidation`: the three-iteration retry loop, unrolled.  `reads n` is
the `fs.readFile` outcome observed on attempt `n`; the returned event list
records read attempts and the fixed 100 ms delays between them. -/
def loadValidationModel {R : Type} (reads : ℕ → ReadOutcome)
    (parse : List Char → Option R) : LoadResult R × List LoadEvent :=
  match loadTry parse (reads 0) with
  | some res => (res, [.readAttempt 0])
  | none =>
    match loadTry parse (reads 1) with
    | some res => (res, [.readAttempt 0, .delay 100, .readAttempt 1])
    | none =>
      (loadLast parse (reads 2),
       [.readAttempt 0, .delay 100, .readAttempt 1, .delay 100, .readAttempt 2])

/-- `saveValidation` (lines 21–44): serialize the whole record and atomically
replace the file keyed by `validation.id` (the temp-file + rename collapses to
one map update; the intermediate temp state is invisible to readers). -/
def saveValidationModel (stringify : ValidationRec → List Char)
    (fs : String → Option (List Char)) (r : ValidationRec) :
    String → Option (List Char) :=
  fun i => if i = r.id then some (stringify r) else fs i

/-- Reading a stable file system: every attempt sees the same bytes
(`enoent` when the key is absent). -/
def readsOfFS (fs : String → Option (List Char)) (id : String) : ℕ → ReadOutcome :=
  fun _ =>
    match fs id with
    | some c => .content c
    | none => .enoent

/-- Concrete record, serializer, parser and empty file system used by
storage witnesses. -/
def rec0 : ValidationRec :=
  ⟨"val_1", .PROCESSING, 0, "Initializing validation pipeline with real data sources...", none, []⟩

def stringify0 : ValidationRec → List Char := fun _ => "{}".toList

def parse0 : List Char → Option ValidationRec :=
  fun s => if s = "{}".toList then some rec0 else none

def noParse : List Char → Option ValidationRec := fun _ => none

/-- A parser that fails on the truncated body `"x,"` but accepts its
comma-repair `"x\x7d"`: exercises the final-attempt repair path. -/
def parseRepair : List Char → Option ValidationRec :=
  fun s => if s = "x\x7d".toList then some rec0 else none

/-! ## Pipeline orchestrator — model of
`src/lib/processing/validation-pipeline.ts` and the driver
`runValidationPipelineAsync` in `src/app/api/validate/start/route.ts`.

The bodies of the ten steps call external collaborators (Gemini, Reddit
search, the AI researchers); their outcomes are supplied as an `ExtCalls`
record of `Except` values, where `.error m` models the call throwing an
`Error` with message `m`.  Steps 3 and 10 contain no fallible external call
(they are pure computations over step 2's data), so they have no entry.
For steps 5–8 the success payload is just the formatted completion
description (its float formatting, e.g. `toFixed(1)`, is not representable);
step 9's payload is the provider name.  `updateValidation` persistence is
recorded by appending each merged record state to `snaps`. -/

structure ProcessingResult where
  success : Bool
  dataPoints : ℤ
deriving DecidableEq, Repr

/-- Step 1 success data: `searchKeywords` and the number of recommended
subreddits from the AI keyword response. -/
structure K1Data where
  keywords : List String
  subCount : ℕ
deriving DecidableEq, Repr

/-- Step 4 success data: numbers of competitors and complaints found. -/
structure CompDataM where
  competitors : ℕ
  complaints : ℕ
deriving DecidableEq, Repr

/-- Outcomes of the fallible external calls inside the step bodies. -/
structure ExtCalls where
  e1 : Except String K1Data
  e2 : Except String RedditInsight
  e4 : Except String CompDataM
  e5 : Except String String
  e6 : Except String String
  e7 : Except String String
  e8 : Except String String
  e9 : Except String String

/-- The `steps` template, lines 40–111 of the pipeline (note steps 4 and 5
share the target progress 75, as in the source). -/
def initialSteps : List PStep :=
  [⟨1, "Extract Keywords", "Using AI to extract searchable keywords from your idea...", 15, .pending, none⟩,
   ⟨2, "Search Reddit", "Searching Reddit discussions for real user problems...", 35, .pending, none⟩,
   ⟨3, "Analyze Sentiment", "Analyzing sentiment of real posts to calculate demand...", 55, .pending, none⟩,
   ⟨4, "AI Competitor Research", "AI researching current competitors in the market...", 75, .pending, none⟩,
   ⟨5, "AI Market Research", "AI researching market size and growth data...", 75, .pending, none⟩,
   ⟨6, "AI Scalability Research", "AI analyzing business scalability and growth potential...", 80, .pending, none⟩,
   ⟨7, "AI Moat Research", "AI researching competitive moat and defensibility...", 85, .pending, none⟩,
   ⟨8, "AI UVZ Research", "AI researching unique value zone and competitive differentiation...", 90, .pending, none⟩,
   ⟨9, "Generate Report", "Combining all real data into evidence-based report...", 95, .pending, none⟩,
   ⟨10, "Calculate Scores", "Computing final validation scores from real metrics...", 100, .pending, none⟩]

/-- Orchestrator state: the mutable step array, the stored record, and the
sequence of record states persisted so far (`snaps`). -/
structure PipeSt where
  steps : List PStep
  stored : ValidationRec
  snaps : List ValidationRec
deriving DecidableEq, Repr

/-- `updateStepStatus` (lines 612–633): mutate the step in place (note the JS
`if (description)` guard, under which an empty message does not overwrite the
description), then persist `{progress, currentStep, processingSteps}` keyed on
the current `processing` step, or on the step just `completed`; if neither
exists (e.g. a `failed` update) nothing is persisted. -/
def updateStepStatusModel (st : PipeSt) (n : ℕ) (status : StepStatus)
    (desc : Option String) : PipeSt :=
  let steps := st.steps.map (fun s =>
    if s.step = n then
      { s with
        status := status,
        description :=
          match desc with
          | some d => if d = "" then s.description else d
          | none => s.description }
    else s)
  let current :=
    (steps.find? (fun s => decide (s.status = .processing))).orElse
      (fun _ => steps.find? (fun s => decide (s.status = .completed ∧ s.step = n)))
  match current with
  | some cs =>
    let stored := { st.stored with
                    progress := cs.progress,
                    currentStep := cs.description,
                    psteps := steps }
    ⟨steps, stored, st.snaps ++ [stored]⟩
  | none => ⟨steps, st.stored, st.snaps⟩

/-- `data.realData?.totalMentions || 0`. -/
def mentionsOf (rd : RedditInsight) : ℤ :=
  match rd.realData with
  | some d => d.totalMentions
  | none => 0

/-- Step 2's returned `ProcessingResult` (lines 331–336):
`success: true // Always continue pipeline even with 0 mentions`. -/
def step2ProcessingResult (rd : RedditInsight) : ProcessingResult :=
  ⟨true, mentionsOf rd⟩

/-- Step 3's returned `ProcessingResult` (lines 345–357): success in both
branches, with `dataPoints: 0` when no Reddit data is present. -/
def step3ProcessingResult (rd : RedditInsight) : ProcessingResult :=
  match rd.realData with
  | some d => ⟨true, d.totalMentions⟩
  | none => ⟨true, 0⟩

/-- Step 3's completion description (lines 350–356). -/
def step3Desc (rd : RedditInsight) : String :=
  match rd.realData with
  | some d =>
    let pct : ℤ :=
      if d.totalMentions > 0
      then jsRound (((d.frustratedUsers : ℚ) / (d.totalMentions : ℚ)) * 100)
      else 0
    toString pct ++ "% of users frustrated with current solutions"
  | none => "No posts found - continuing with limited data analysis"

def gradeToString : Grade → String
  | .A => "A"
  | .Bp => "B+"
  | .B => "B"
  | .C => "C"
  | .D => "D"
  | .F => "F"

/-- Step 10's completion description (line 560). -/
def step10Desc (rd : RedditInsight) (cd : CompDataM) : String :=
  let realScores := calculateRealValidationScore rd
  let totalDataPoints : ℤ := mentionsOf rd + (cd.competitors : ℤ)
  "Validation complete! Grade: " ++ gradeToString realScores.overall.grade
    ++ " (" ++ toString totalDataPoints ++ " data points analyzed)"

structure ExecResult where
  success : Bool
  error : Option String
deriving DecidableEq, Repr

/-- A step body threw: `executeStep`'s catch (lines 605–609) marks the step
`failed` with the captured message and rethrows; `execute`'s catch
(lines 578–592) then finds no step in `processing` (it is already `failed`),
so it only returns the failure result — the exception stops there. -/
def failStep (st : PipeSt) (n : ℕ) (msg : String) : ExecResult × PipeSt :=
  (⟨false, some msg⟩, updateStepStatusModel st n .failed (some msg))

/-- One `executeStep` invocation: step number and the body's outcome
(`error m` = the body threw `m`; `ok (status, desc)` = the status and
description the pipeline records on completion). -/
inductive PAction where
  | runStep (n : ℕ) (outcome : Except String (StepStatus × String))
deriving Repr

/-- Step 1's completion description (line 303). -/
def step1Desc (k1 : K1Data) : String :=
  "AI found " ++ toString k1.subCount ++ " target subreddits + "
    ++ toString k1.keywords.length ++ " keywords"

/-- Step 2's recorded status (line 341):
`redditResult.success ? 'completed' : 'failed'`, where the body's `success`
is the literal `true` (line 333). -/
def step2Status (rd : RedditInsight) : StepStatus :=
  if (step2ProcessingResult rd).success then .completed else .failed

/-- Step 2's completion description (line 342). -/
def step2Desc (rd : RedditInsight) : String :=
  if (step2ProcessingResult rd).success
  then "Found " ++ toString (mentionsOf rd) ++ " real Reddit discussions"
  else "No Reddit discussions found"

/-- Step 4's completion description (line 412). -/
def step4Desc (cd : CompDataM) : String :=
  "Found " ++ toString cd.competitors ++ " competitors, "
    ++ toString cd.complaints ++ " user complaints"

/-- The ten `executeStep` invocations of `execute` (lines 119–593), in source
order, with each body's outcome derived from the external-call outcomes.
Steps 3 and 10 contain no fallible call of their own: step 3 reuses step 2's
data (its action shares `e2`'s error, which is unreachable because a failed
step 2 aborts the run before step 3), and step 10 scores step 2's Reddit data
(the `.ok ""` default in its unreachable branch is likewise never consumed). -/
def actionsOf (ext : ExtCalls) : List PAction :=
  [.runStep 1 (ext.e1.map (fun k1 => (StepStatus.completed, step1Desc k1))),
   .runStep 2 (ext.e2.map (fun rd => (step2Status rd, step2Desc rd))),
   .runStep 3 (ext.e2.map (fun rd => (StepStatus.completed, step3Desc rd))),
   .runStep 4 (ext.e4.map (fun cd => (StepStatus.completed, step4Desc cd))),
   .runStep 5 (ext.e5.map (fun d => (StepStatus.completed, d))),
   .runStep 6 (ext.e6.map (fun d => (StepStatus.completed, d))),
   .runStep 7 (ext.e7.map (fun d => (StepStatus.completed, d))),
   .runStep 8 (ext.e8.map (fun d => (StepStatus.completed, d))),
   .runStep 9 (ext.e9.map (fun p =>
     (StepStatus.completed, "AI analysis completed using " ++ p))),
   .runStep 10 (match ext.e2, ext.e4 with
     | .ok rd, .ok cd => .ok (StepStatus.completed, step10Desc rd cd)
     | _, _ => .ok (StepStatus.completed, ""))]

/-- The step loop: mark the step `processing`, run its body; a throw aborts
the whole run via `failStep` (no later action is attempted), success records
the completion update and continues.  An exhausted list is the successful
return of `execute` (lines 565–576). -/
def runActions : List PAction → PipeSt → ExecResult × PipeSt
  | [], st => (⟨true, none⟩, st)
  | .runStep n out :: rest, st =>
    let st1 := updateStepStatusModel st n .processing none
    match out with
    | .error m => failStep st1 n m
    | .ok sd => runActions rest (updateStepStatusModel st1 n sd.1 (some sd.2))

/-- `ValidationPipeline.execute` (lines 119–593). -/
def executeModel (ext : ExtCalls) (st : PipeSt) : ExecResult × PipeSt :=
  runActions (actionsOf ext) st

/-- The initial record built by `POST /api/validate/start` (route lines
34–46): status `PROCESSING`, progress 0. -/
def initialValidationRecord (validationId : String) : ValidationRec :=
  ⟨validationId, .PROCESSING, 0,
   "Initializing validation pipeline with real data sources...", none, []⟩

structure RunOutcome where
  res : ExecResult
  finalRec : ValidationRec
  snaps : List ValidationRec
  steps : List PStep
deriving DecidableEq, Repr

/-- The orchestrator's starting state: the step template, the freshly saved
initial record, and that record as the first persisted snapshot. -/
def pipeInit (validationId : String) : PipeSt :=
  ⟨initialSteps, initialValidationRecord validationId,
   [initialValidationRecord validationId]⟩

/-- `runValidationPipelineAsync` (route lines 89–144): run the pipeline
against the freshly saved initial record; on success persist
`status = COMPLETED`, on failure `status = FAILED` with
`errorMessage = result.error || 'Unknown pipeline error'`. -/
def runPipelineModel (validationId : String) (ext : ExtCalls) : RunOutcome :=
  let out := executeModel ext (pipeInit validationId)
  let res := out.1
  let st := out.2
  if res.success then
    let final := { st.stored with status := .COMPLETED, psteps := st.steps }
    ⟨res, final, st.snaps ++ [final], st.steps⟩
  else
    let final := { st.stored with
                   status := .FAILED,
                   currentStep := "Pipeline execution failed",
                   errorMessage := some (match res.error with
                     | some m => if m = "" then "Unknown pipeline error" else m
                     | none => "Unknown pipeline error"),
                   psteps := st.steps }
    ⟨res, final, st.snaps ++ [final], st.steps⟩

/-- The step number and message of the first throwing step body, if any. -/
def failsAt (ext : ExtCalls) : Option (ℕ × String) :=
  match ext.e1 with
  | .error m => some (1, m)
  | .ok _ =>
    match ext.e2 with
    | .error m => some (2, m)
    | .ok _ =>
      match ext.e4 with
      | .error m => some (4, m)
      | .ok _ =>
        match ext.e5 with
        | .error m => some (5, m)
        | .ok _ =>
          match ext.e6 with
          | .error m => some (6, m)
          | .ok _ =>
            match ext.e7 with
            | .error m => some (7, m)
            | .ok _ =>
              match ext.e8 with
              | .error m => some (8, m)
              | .ok _ =>
                match ext.e9 with
                | .error m => some (9, m)
                | .ok _ => none

/-- Status of step number `n` in a step list. -/
def stepStatus (steps : List PStep) (n : ℕ) : Option StepStatus :=
  (steps.find? (fun s => decide (s.step = n))).map (·.status)

/-- Description of step number `n` in a step list. -/
def stepDesc (steps : List PStep) (n : ℕ) : Option String :=
  (steps.find? (fun s => decide (s.step = n))).map (·.description)

/-! ### Proof infrastructure: the string-free sketch of a step list

The persisted progress trace depends only on each step's number, target
progress and status — never on its description.  `sketch` projects a step
list to that data; `skUpdate`/`skPersist` mirror `updateStepStatusModel` on
sketches, so per-run traces can be computed without materialising the
description strings. -/

def skProj (s : PStep) : ℕ × ℕ × StepStatus := (s.step, s.progress, s.status)

def sketch (steps : List PStep) : List (ℕ × ℕ × StepStatus) := steps.map skProj

def skUpdate (n : ℕ) (status : StepStatus) (sk : List (ℕ × ℕ × StepStatus)) :
    List (ℕ × ℕ × StepStatus) :=
  sk.map (fun t => if t.1 = n then (t.1, t.2.1, status) else t)

def skPersist (n : ℕ) (sk : List (ℕ × ℕ × StepStatus)) : Option ℕ :=
  (((sk.find? (fun t => decide (t.2.2 = StepStatus.processing))).orElse
      (fun _ => sk.find? (fun t => decide (t.2.2 = StepStatus.completed ∧ t.1 = n)))).map
    (fun t => t.2.1))

/-- All-successful external outcomes used by pipeline witnesses, with step 2
finding zero discussions (`zeroC1` has no real data). -/
def extOkZero : ExtCalls :=
  ⟨.ok ⟨["a"], 3⟩, .ok zeroC1, .ok ⟨2, 1⟩, .ok "TAM researched",
   .ok "scalability researched", .ok "moat researched", .ok "uvz researched",
   .ok "GEMINI"⟩

/-- `extOkZero` with step 1's body throwing. -/
def extFail1 : ExtCalls :=
  { extOkZero with e1 := .error "GEMINI_API_KEY not configured" }

/-! ## Trigger route — model of `POST` in
`src/app/api/validate/start/route.ts` (lines 25–86) -/

inductive RouteEvent
  | saveRecord (r : ValidationRec)
  | startPipelineAsync (validationId : String)
  | respond (status : ℕ)
deriving DecidableEq, Repr

/-- The ordered effects of an accepted trigger request: `await
saveValidation(validation)` (line 49), then `runValidationPipelineAsync(...)`
*without* `await` (line 52), then the 200 response (line 64) — the response
does not wait for the pipeline. -/
def postTrace (validationId : String) : List RouteEvent :=
  [.saveRecord (initialValidationRecord validationId),
   .startPipelineAsync validationId,
   .respond 200]

end IValidate

namespace IValidate

/-! ## StructuredExtractor — model of `parseAIResponse` /
`sanitizeJSONString` in `src/lib/ai/content-analyzer.ts`

Regex operations are modelled as explicit scanners on `List Char` with JS
left-to-right global-replace semantics.  `JSON.parse` and the regex-driven
internals of `reconstructJSON` are platform/derived operations supplied as
`JSPrims` parameters (`none` models a throw); the outer `try/catch` of
`reconstructJSON` returning a fixed default record (analyzer lines 148-160)
is kept concrete, which is what makes strategy 4 — and with it the whole
parser — total. -/

/-- Global replacement of the literal token `t0 :: ts` followed by one
optional newline with the empty string: the scanner behind
`.replace(/```json\n?/g, \x27\x27)` and `.replace(/```\n?/g, \x27\x27)`
(analyzer line 43).  When the token matches at the scan position and the
character right after it is a newline, the greedy `\n?` consumes it too;
scanning resumes after the match. -/
def stripTok (t0 : Char) (ts : List Char) : List Char → List Char
  | [] => []
  | c :: rest =>
    if (t0 :: ts).isPrefixOf (c :: rest) then
      if (rest.drop ts.length).head? = some '\n' then
        stripTok t0 ts (rest.drop (ts.length + 1))
      else stripTok t0 ts (rest.drop ts.length)
    else c :: stripTok t0 ts rest
termination_by s => s.length
decreasing_by
  · have : (rest.drop (ts.length + 1)).length ≤ rest.length := by simp
    simp
    omega
  · have : (rest.drop ts.length).length ≤ rest.length := by simp
    simp
    omega
  · simp

/-- `.replace(/```json\n?/g, \x27\x27)`. -/
def stripJsonFence (s : List Char) : List Char :=
  stripTok '`' ['`', '`', 'j', 's', 'o', 'n'] s

/-- `.replace(/```\n?/g, \x27\x27)`. -/
def stripFence (s : List Char) : List Char :=
  stripTok '`' ['`', '`'] s

/-- Everything up to and including the last occurrence of `c`. -/
def keepUpToLast (c : Char) (l : List Char) : List Char :=
  (l.reverse.dropWhile (fun x => decide (x ≠ c))).reverse

/-- `cleanText.match(/\{[\s\S]*\}/)` followed by `cleanText = jsonMatch[0]`
(analyzer lines 46-49): the greedy match spans from the first `\x7b` to the
last `\x7d` after it; with no match the text is left unchanged. -/
def extractJson (s : List Char) : List Char :=
  match s.dropWhile (fun x => decide (x ≠ '{')) with
  | [] => s
  | _ :: rest => if '}' ∈ rest then '{' :: keepUpToLast '}' rest else s

/-- Global literal replacement of `p0 :: ps` by `rep`: the scanner behind the
fixed-string double-escape repairs of `sanitizeJSONString`
(analyzer lines 106-109). -/
def replaceSub (p0 : Char) (ps rep : List Char) : List Char → List Char
  | [] => []
  | c :: rest =>
    if (p0 :: ps).isPrefixOf (c :: rest) then
      rep ++ replaceSub p0 ps rep (rest.drop ps.length)
    else c :: replaceSub p0 ps rep rest
termination_by s => s.length
decreasing_by
  · have : (rest.drop ps.length).length ≤ rest.length := by simp
    simp
    omega
  · simp

/-- Body of a JS string literal for the lazy pattern
`/("(?:[^"\\]|\\.)*?")/` starting right after an opening quote: the raw
characters up to the first unescaped `"`.  A `\\.` alternative cannot
consume a line terminator, and an unterminated literal is no match
(`none`).  The full match has length `body.length + 2`. -/
def takeLit : List Char → Option (List Char)
  | [] => none
  | c :: r =>
    if c = '"' then some []
    else if c = '\\' then
      match r with
      | [] => none
      | c2 :: r2 =>
        if c2 = '\n' ∨ c2 = '\r' then none
        else
          match takeLit r2 with
          | some b => some ('\\' :: c2 :: b)
          | none => none
    else
      match takeLit r with
      | some b => some (c :: b)
      | none => none

/-- The per-match replacement of the string-literal pass: re-escape raw
`\n`, `\r`, `\t` inside a matched literal (analyzer lines 111-113). -/
def escChar (c : Char) : List Char :=
  if c = '\n' then ['\\', 'n']
  else if c = '\r' then ['\\', 'r']
  else if c = '\t' then ['\\', 't']
  else [c]

def escBody (b : List Char) : List Char := b.flatMap escChar

/-- The string-literal pass
`.replace(/("(?:[^"\\]|\\.)*?")/g, m => m.replace(...))`
(analyzer lines 111-113): at each position, if a lazy string literal starts
here, rewrite its body and resume after its closing quote (the match has
`b.length + 2` characters, so the remainder is `rest.drop (b.length + 1)`),
otherwise move one character forward. -/
def escInStr : List Char → List Char
  | [] => []
  | c :: rest =>
    if c = '"' then
      match takeLit rest with
      | some b => '"' :: (escBody b ++ ('"' :: escInStr (rest.drop (b.length + 1))))
      | none => '"' :: escInStr rest
    else c :: escInStr rest
termination_by s => s.length
decreasing_by
  · have : (rest.drop (b.length + 1)).length ≤ rest.length := by simp
    simp
    omega
  · simp
  · simp

/-- The control-character pass `.replace(/[\x00-\x1F\x7F]/g, ...)`
(analyzer lines 116-122): tab, newline and carriage return are re-escaped,
every other control character is removed. -/
def ctlFix (c : Char) : List Char :=
  if c = '\t' then ['\\', 't']
  else if c = '\n' then ['\\', 'n']
  else if c = '\r' then ['\\', 'r']
  else if c.toNat ≤ 31 ∨ c.toNat = 127 then []
  else [c]

/-- `sanitizeJSONString` (analyzer lines 102-123), pass by pass in source
order: the three double-escape repairs plus the escaped-quote repair, the
string-literal pass, null-byte removal, and the control-character pass.
No pass inspects commas: the function never strips a trailing comma. -/
def sanitizeJSONString (text : List Char) : List Char :=
  let s1 := replaceSub '\\' ['\\', '"'] ['\\', '"'] text
  let s2 := replaceSub '\\' ['\\', 'n'] ['\\', 'n'] s1
  let s3 := replaceSub '\\' ['\\', 'r'] ['\\', 'r'] s2
  let s4 := replaceSub '\\' ['\\', 't'] ['\\', 't'] s3
  let s5 := escInStr s4
  let s6 := s5.filter (fun c => decide (c ≠ '\x00'))
  s6.flatMap ctlFix

/-- One quote record of the analyzer result (`AnalyzedContent.relevantQuotes`
element type in content-analyzer.ts). -/
structure AnalyzedQuote where
  quote : List Char
  author : List Char
  subreddit : List Char
  upvotes : ℤ
  url : List Char
  sentiment : Sentiment
  relevanceScore : ℚ
  painPointCategory : List Char
  sentimentConfidence : ℚ
deriving DecidableEq

/-- The `AnalyzedContent` interface of content-analyzer.ts. -/
structure AnalyzedContent where
  relevantQuotes : List AnalyzedQuote
  overallSentiment : ℚ
  painPoints : List (List Char)
  keyInsights : List (List Char)
  frustrationLevel : ℚ
  totalRelevantPosts : ℤ
  analysisConfidence : ℚ
deriving DecidableEq

/-- The minimal safe-default record returned by the catch clause of
`reconstructJSON` (analyzer lines 151-159). -/
def defaultAnalyzedContent : AnalyzedContent :=
  ⟨[], 5, ["Failed to parse AI analysis".toList],
   ["AI response could not be parsed".toList], 0, 0, 1/10⟩

/-- Platform and derived primitives consumed by the parse strategies:
`jsonParse` is `JSON.parse` (`none` = throws), `fixQuotes` and `escCtl` are
the regex text transforms of strategies 2 and 3, and `recon` is the
regex-driven field extraction inside the `try` of `reconstructJSON`
(`none` = that body threw). -/
structure JSPrims where
  jsonParse : List Char → Option AnalyzedContent
  fixQuotes : List Char → List Char
  escCtl : List Char → List Char
  recon : List Char → Option AnalyzedContent

/-- `reconstructJSON` (analyzer lines 125-161): any failure of the
extraction body is caught and replaced by the fixed default record, so the
function never throws. -/
def reconstructJSON (pr : JSPrims) (s : List Char) : AnalyzedContent :=
  (pr.recon s).getD defaultAnalyzedContent

/-- Step 1 of `parseAIResponse` (analyzer lines 39-49): trim, strip the two
fence patterns, take the outermost brace span. -/
def cleanupText (s : List Char) : List Char :=
  extractJson (stripFence (stripJsonFence (jsTrim s)))

/-- `parseAIResponse` (analyzer lines 38-100): sanitize the cleaned text,
then try the four strategies in order; strategy 4 (`reconstructJSON`)
cannot fail, so the final `throw new Error(...)` after the strategies is
unreachable and `Except.error` never arises. -/
def parseAIResponse (pr : JSPrims) (aiText : List Char) :
    Except (List Char) AnalyzedContent :=
  let clean := sanitizeJSONString (cleanupText aiText)
  match pr.jsonParse clean with
  | some r => .ok r
  | none =>
    match pr.jsonParse (pr.fixQuotes clean) with
    | some r => .ok r
    | none =>
      match pr.jsonParse (pr.escCtl clean) with
      | some r => .ok r
      | none => .ok (reconstructJSON pr clean)

/-- Markdown code-fence wrapping of a payload, as produced by the AI model:
the `json` fence line, the payload, a closing fence line. -/
def wrapMdFence (j : List Char) : List Char :=
  ['`', '`', '`', 'j', 's', 'o', 'n', '\n'] ++ j ++ ['\n', '`', '`', '`']

/-- A platform stub on which `JSON.parse` and the reconstruction body always
throw: the worst case for the parse strategies, used as a concrete test
input. -/
def noJsPrims : JSPrims :=
  ⟨fun _ => none, id, id, fun _ => none⟩

end IValidate

namespace IValidate

/-! ## Helper lemmas -/

theorem jsRound_intCast (n : ℤ) : jsRound (n : ℚ) = n := by
  unfold jsRound
  rw [add_comm, Int.floor_add_int]
  norm_num

theorem jsRound_nonneg {q : ℚ} (h : 0 ≤ q) : 0 ≤ jsRound q := by
  unfold jsRound
  have : (0:ℚ) ≤ q + 1/2 := by linarith
  exact Int.floor_nonneg.mpr this

theorem jsRound_le_of_le {q : ℚ} {b : ℤ} (h : q ≤ (b : ℚ)) : jsRound q ≤ b := by
  have h2 : jsRound q ≤ jsRound (b : ℚ) := by
    unfold jsRound
    exact Int.floor_le_floor (by linarith)
  simpa [jsRound_intCast] using h2

theorem mentionScoreOf_bounds (n : ℤ) :
    0 ≤ mentionScoreOf n ∧ mentionScoreOf n ≤ 30 := by
  unfold mentionScoreOf
  split_ifs <;> norm_num

theorem frustrationScoreOf_bounds (p : ℚ) :
    4 ≤ frustrationScoreOf p ∧ frustrationScoreOf p ≤ 35 := by
  unfold frustrationScoreOf
  split_ifs <;> norm_num

theorem competitorScoreOf_bounds (p : ℚ) :
    5 ≤ competitorScoreOf p ∧ competitorScoreOf p ≤ 40 := by
  unfold competitorScoreOf
  split_ifs <;> norm_num

theorem complaintScoreOf_bounds (n : ℤ) :
    8 ≤ complaintScoreOf n ∧ complaintScoreOf n ≤ 35 := by
  unfold complaintScoreOf
  split_ifs <;> norm_num

theorem gapScoreOf_bounds (n : ℤ) :
    5 ≤ gapScoreOf n ∧ gapScoreOf n ≤ 25 := by
  unfold gapScoreOf
  split_ifs <;> norm_num

theorem foldl_pair_mono {α : Type} (f : ℤ × ℤ → α → ℤ × ℤ)
    (hf : ∀ a b, a.1 ≤ (f a b).1 ∧ a.2 ≤ (f a b).2) :
    ∀ (l : List α) (acc : ℤ × ℤ),
      acc.1 ≤ (l.foldl f acc).1 ∧ acc.2 ≤ (l.foldl f acc).2 := by
  intro l
  induction l with
  | nil => intro acc; exact ⟨le_refl _, le_refl _⟩
  | cons b t ih =>
    intro acc
    have h1 := hf acc b
    have h2 := ih (f acc b)
    exact ⟨le_trans h1.1 h2.1, le_trans h1.2 h2.2⟩

theorem severityAccum_mono (acc : ℤ × ℤ) (q : TopQuote) :
    acc.1 ≤ (severityAccum acc q).1 ∧ acc.2 ≤ (severityAccum acc q).2 := by
  unfold severityAccum
  refine foldl_pair_mono _ ?_ highSeverityKeywords acc
  intro a b
  split_ifs <;> simp <;> omega

theorem severityCounts_nonneg (qs : List TopQuote) :
    0 ≤ (severityCounts qs).1 ∧ 0 ≤ (severityCounts qs).2 := by
  unfold severityCounts
  exact foldl_pair_mono severityAccum severityAccum_mono qs (0, 0)

theorem marketDemand_score_bounds (rd : RedditInsight)
    (he : 0 ≤ rd.engagementLevel) :
    0 ≤ (calculateMarketDemandScore rd).score ∧
      (calculateMarketDemandScore rd).score ≤ 100 := by
  unfold calculateMarketDemandScore
  cases hrd : rd.realData with
  | none => norm_num
  | some d =>
    by_cases hz : d.totalMentions = 0
    · simp [hz]
    · simp only [hz, if_false]
      constructor
      · refine le_min ?_ (by norm_num)
        refine jsRound_nonneg ?_
        have h1 := mentionScoreOf_bounds d.totalMentions
        have h2 := frustrationScoreOf_bounds ((d.frustratedUsers : ℚ) / (d.totalMentions : ℚ) * 100)
        have h3 := severityCounts_nonneg d.topQuotes
        have h4 : (0:ℤ) ≤ min ((severityCounts d.topQuotes).1 + (severityCounts d.topQuotes).2 * 2) 25 :=
          le_min (by linarith [h3.1, h3.2]) (by norm_num)
        have h5 : (0:ℚ) ≤ engagementScoreOf rd.engagementLevel := by
          unfold engagementScoreOf
          exact le_min (by linarith) (by norm_num)
        have c1 : (0:ℚ) ≤ (mentionScoreOf d.totalMentions : ℚ) := by exact_mod_cast h1.1
        have c2 : (4:ℚ) ≤ (frustrationScoreOf ((d.frustratedUsers : ℚ) / (d.totalMentions : ℚ) * 100) : ℚ) := by
          exact_mod_cast h2.1
        have c4 : (0:ℚ) ≤ (min ((severityCounts d.topQuotes).1 + (severityCounts d.topQuotes).2 * 2) 25 : ℤ) := by
          exact_mod_cast h4
        push_cast
        push_cast at c4
        linarith
      · exact min_le_right _ _

theorem competition_score_bounds (rd : RedditInsight) :
    0 ≤ (calculateCompetitionScore rd).score ∧
      (calculateCompetitionScore rd).score ≤ 100 := by
  unfold calculateCompetitionScore
  refine ⟨le_min ?_ (by norm_num), min_le_right _ _⟩
  refine jsRound_nonneg ?_
  set counts := (match rd.realData with
    | some r => r.topQuotes.foldl quoteCountsAccum (0, 0, 0)
    | none => (0, 0, 0) : ℤ × ℤ × ℤ) with hc
  set tm := (match rd.realData with
    | some r => r.totalMentions
    | none => 0 : ℤ) with ht
  have h1 := competitorScoreOf_bounds
    (if tm > 0 then ((counts.1 : ℚ) / (tm : ℚ)) * 100 else 0)
  have h2 := complaintScoreOf_bounds counts.2.1
  have h3 := gapScoreOf_bounds counts.2.2
  have c1 : (5:ℚ) ≤ (competitorScoreOf (if tm > 0 then ((counts.1 : ℚ) / (tm : ℚ)) * 100 else 0) : ℚ) := by
    exact_mod_cast h1.1
  have c2 : (8:ℚ) ≤ (complaintScoreOf counts.2.1 : ℚ) := by exact_mod_cast h2.1
  have c3 : (5:ℚ) ≤ (gapScoreOf counts.2.2 : ℚ) := by exact_mod_cast h3.1
  linarith

end IValidate

namespace IValidate

/-! ## Claim C1 -/

/-- C1 counterexample: the claim quantifies over *every* `RedditInsight`, but
`engagementLevel` (average upvotes) is unclamped and can be negative; with
`engagementLevel = -100` and one mention, the engagement tier contributes
`min(-100 * 0.5, 10) = -50`, the market-demand score becomes `-40`, and the
overall score `round(0.60 * (-40) + 0.40 * 53) = -3`, which is outside
`[0,100]`.  Hence "a value in [0,100]" fails as stated. -/
theorem calculateRealValidationScore_negative_engagement_ce :
    (calculateRealValidationScore ceC1).marketDemand.score = -40 ∧
    (calculateRealValidationScore ceC1).competition.score = 53 ∧
    (calculateRealValidationScore ceC1).overall.score = -3 ∧
    ¬ (0 ≤ (calculateRealValidationScore ceC1).overall.score) := by
  norm_num [calculateRealValidationScore, calculateMarketDemandScore,
    calculateCompetitionScore, ceC1, mentionScoreOf, frustrationScoreOf,
    severityCounts, engagementScoreOf, competitorScoreOf, complaintScoreOf,
    gapScoreOf, jsRound]

/-- C1 (amended): for every `RedditInsight` whose `engagementLevel` is
nonnegative, `calculateRealValidationScore` returns
`overall.score = round(0.60 * marketDemand.score + 0.40 * competition.score)`,
a value in `[0, 100]`, and `overall.grade` is the pure function of
`overall.score` given by the threshold table
(`≥90 → A, ≥80 → B+, ≥70 → B, ≥60 → C, ≥50 → D, else F`). -/
theorem calculateRealValidationScore_overall_spec (rd : RedditInsight)
    (he : 0 ≤ rd.engagementLevel) :
    (calculateRealValidationScore rd).overall.score =
      jsRound (((calculateRealValidationScore rd).marketDemand.score : ℚ) * (60/100)
        + ((calculateRealValidationScore rd).competition.score : ℚ) * (40/100)) ∧
    0 ≤ (calculateRealValidationScore rd).overall.score ∧
    (calculateRealValidationScore rd).overall.score ≤ 100 ∧
    (calculateRealValidationScore rd).overall.grade =
      gradeOf (calculateRealValidationScore rd).overall.score ∧
    (∀ s : ℤ,
      (90 ≤ s → gradeOf s = Grade.A) ∧
      (80 ≤ s ∧ s < 90 → gradeOf s = Grade.Bp) ∧
      (70 ≤ s ∧ s < 80 → gradeOf s = Grade.B) ∧
      (60 ≤ s ∧ s < 70 → gradeOf s = Grade.C) ∧
      (50 ≤ s ∧ s < 60 → gradeOf s = Grade.D) ∧
      (s < 50 → gradeOf s = Grade.F)) := by
  have hmd := marketDemand_score_bounds rd he
  have hcp := competition_score_bounds rd
  refine ⟨rfl, ?_, ?_, rfl, ?_⟩
  · show 0 ≤ jsRound (((calculateMarketDemandScore rd).score : ℚ) * (60/100)
      + ((calculateCompetitionScore rd).score : ℚ) * (40/100))
    refine jsRound_nonneg ?_
    have c1 : (0:ℚ) ≤ ((calculateMarketDemandScore rd).score : ℚ) := by exact_mod_cast hmd.1
    have c2 : (0:ℚ) ≤ ((calculateCompetitionScore rd).score : ℚ) := by exact_mod_cast hcp.1
    have m1 : (0:ℚ) ≤ ((calculateMarketDemandScore rd).score : ℚ) * (60/100) :=
      mul_nonneg c1 (by norm_num)
    have m2 : (0:ℚ) ≤ ((calculateCompetitionScore rd).score : ℚ) * (40/100) :=
      mul_nonneg c2 (by norm_num)
    linarith
  · show jsRound (((calculateMarketDemandScore rd).score : ℚ) * (60/100)
      + ((calculateCompetitionScore rd).score : ℚ) * (40/100)) ≤ 100
    refine jsRound_le_of_le ?_
    have c1 : ((calculateMarketDemandScore rd).score : ℚ) ≤ 100 := by exact_mod_cast hmd.2
    have c2 : ((calculateCompetitionScore rd).score : ℚ) ≤ 100 := by exact_mod_cast hcp.2
    have m1 : ((calculateMarketDemandScore rd).score : ℚ) * (60/100) ≤ 100 * (60/100) :=
      mul_le_mul_of_nonneg_right c1 (by norm_num)
    have m2 : ((calculateCompetitionScore rd).score : ℚ) * (40/100) ≤ 100 * (40/100) :=
      mul_le_mul_of_nonneg_right c2 (by norm_num)
    push_cast
    linarith
  · intro s
    refine ⟨fun h => ?_, fun h => ?_, fun h => ?_, fun h => ?_, fun h => ?_, fun h => ?_⟩ <;>
      · unfold gradeOf
        split_ifs <;> first | rfl | (exfalso; omega)

/-- C1 witness: the amended theorem applied at the no-data insight
(`engagementLevel = 0`), whose overall score is `round(0.6*15 + 0.4*53) = 30`
with grade `F`. -/
theorem calculateRealValidationScore_overall_spec_witness :
    0 ≤ zeroC1.engagementLevel ∧
    ((calculateRealValidationScore zeroC1).overall.score =
      jsRound (((calculateRealValidationScore zeroC1).marketDemand.score : ℚ) * (60/100)
        + ((calculateRealValidationScore zeroC1).competition.score : ℚ) * (40/100)) ∧
    0 ≤ (calculateRealValidationScore zeroC1).overall.score ∧
    (calculateRealValidationScore zeroC1).overall.score ≤ 100 ∧
    (calculateRealValidationScore zeroC1).overall.grade =
      gradeOf (calculateRealValidationScore zeroC1).overall.score ∧
    (∀ s : ℤ,
      (90 ≤ s → gradeOf s = Grade.A) ∧
      (80 ≤ s ∧ s < 90 → gradeOf s = Grade.Bp) ∧
      (70 ≤ s ∧ s < 80 → gradeOf s = Grade.B) ∧
      (60 ≤ s ∧ s < 70 → gradeOf s = Grade.C) ∧
      (50 ≤ s ∧ s < 60 → gradeOf s = Grade.D) ∧
      (s < 50 → gradeOf s = Grade.F))) :=
  ⟨by norm_num [zeroC1],
   calculateRealValidationScore_overall_spec zeroC1 (by norm_num [zeroC1])⟩

/-! ## Claim C3 -/

/-- C3: whenever `realData` is absent or `realData.totalMentions = 0`,
`calculateMarketDemandScore` returns exactly score 15 with all four detail
sub-fields equal to 0 (no other tier contributes). -/
theorem calculateMarketDemandScore_zero_floor (rd : RedditInsight)
    (h : rd.realData = none ∨ ∃ d, rd.realData = some d ∧ d.totalMentions = 0) :
    calculateMarketDemandScore rd = ⟨15, ⟨0, 0, 0, 0⟩⟩ := by
  rcases h with h | ⟨d, hsome, hz⟩
  · simp [calculateMarketDemandScore, h]
  · simp [calculateMarketDemandScore, hsome, hz]

/-- C3 witness: the theorem applied to the no-data insight. -/
theorem calculateMarketDemandScore_zero_floor_witness :
    (zeroC1.realData = none ∨ ∃ d, zeroC1.realData = some d ∧ d.totalMentions = 0) ∧
    calculateMarketDemandScore zeroC1 = ⟨15, ⟨0, 0, 0, 0⟩⟩ :=
  ⟨Or.inl rfl, calculateMarketDemandScore_zero_floor zeroC1 (Or.inl rfl)⟩

end IValidate

namespace IValidate

/-! ## Claim C9 -/

/-- C9: store round-trip.  For any serializer/parser pair that inverts on the
record (the `JSON.parse`/`JSON.stringify` builtins have this property for the
plain-data `ValidationRequest` documents, and serialization output is a
nonempty `{...}` document), `saveValidation(record)` followed by
`loadValidation(record.id)` succeeds on the first read attempt and returns
the very record that was saved. -/
theorem saveValidation_loadValidation_roundtrip
    (stringify : ValidationRec → List Char) (parse : List Char → Option ValidationRec)
    (fs : String → Option (List Char)) (r : ValidationRec)
    (hparse : parse (stringify r) = some r)
    (hnonempty : jsTrim (stringify r) ≠ []) :
    loadValidationModel (readsOfFS (saveValidationModel stringify fs r) r.id) parse
      = (.ok r, [.readAttempt 0]) := by
  unfold loadValidationModel loadTry readsOfFS saveValidationModel
  simp [hparse, hnonempty]

/-- C9 witness: round trip at a concrete record with a concrete
serializer/parser pair. -/
theorem saveValidation_loadValidation_roundtrip_witness :
    parse0 (stringify0 rec0) = some rec0 ∧
    jsTrim (stringify0 rec0) ≠ [] ∧
    loadValidationModel (readsOfFS (saveValidationModel stringify0 (fun _ => none) rec0) rec0.id) parse0
      = (.ok rec0, [.readAttempt 0]) := by
  refine ⟨by simp [parse0, stringify0], by simp [jsTrim, stringify0, isJsWs], ?_⟩
  exact saveValidation_loadValidation_roundtrip stringify0 parse0 (fun _ => none) rec0
    (by simp [parse0, stringify0]) (by simp [jsTrim, stringify0, isJsWs])

/-! ## Claim C4 -/

/-- C4 counterexample: a file that stays empty over all 3 read attempts makes
`loadValidation` **return null** (the not-found result) after exhausting its
retries — not throw the distinct transient-unavailable error, contradicting
"if all 3 attempts fail it surfaces ... a thrown error, never the null
not-found result". -/
theorem loadValidation_persistent_empty_returns_null_ce :
    loadValidationModel (fun _ => ReadOutcome.content []) noParse =
      (LoadResult.notFound,
       [.readAttempt 0, .delay 100, .readAttempt 1, .delay 100, .readAttempt 2]) := by
  unfold loadValidationModel loadTry loadLast noParse
  simp [jsTrim]

/-- C4 (amended): `loadValidation` (a) returns the null/not-found result on
the first attempt with no retry when the file does not exist; (b) retries a
transiently empty or unparseable file up to 3 times with a fixed 100 ms delay
between attempts; and when all 3 attempts fail: (c) content not ending in `,`
throws the distinct transient-unavailable error exactly when it ends in `}`,
and yields the null result otherwise (so a persistently empty file, or
content ending in neither `,` nor `}`, returns null rather than throwing);
(d) content ending in `,` undergoes the comma repair — drop the comma, append
`}` — and parses to the repaired record when the repair parses; (e) when the
repair also fails to parse, the transient-unavailable error is thrown. -/
theorem loadValidation_retry_spec :
    (∀ parse : List Char → Option ValidationRec,
      loadValidationModel (fun _ => ReadOutcome.enoent) parse
        = (.notFound, [.readAttempt 0])) ∧
    (∀ parse : List Char → Option ValidationRec,
      loadValidationModel (fun _ => ReadOutcome.content []) parse
        = (.notFound,
           [.readAttempt 0, .delay 100, .readAttempt 1, .delay 100, .readAttempt 2])) ∧
    (∀ (parse : List Char → Option ValidationRec) (c : List Char),
      parse c = none → jsTrim c ≠ [] → lastIs (jsTrim c) ',' = false →
      loadValidationModel (fun _ => ReadOutcome.content c) parse
        = ((if lastIs (jsTrim c) '}' then LoadResult.threw else LoadResult.notFound),
           [.readAttempt 0, .delay 100, .readAttempt 1, .delay 100, .readAttempt 2])) ∧
    (∀ (parse : List Char → Option ValidationRec) (c : List Char) (r : ValidationRec),
      parse c = none → jsTrim c ≠ [] → lastIs (jsTrim c) ',' = true →
      parse ((jsTrim c).dropLast ++ ['}']) = some r →
      loadValidationModel (fun _ => ReadOutcome.content c) parse
        = (LoadResult.ok r,
           [.readAttempt 0, .delay 100, .readAttempt 1, .delay 100, .readAttempt 2])) ∧
    (∀ (parse : List Char → Option ValidationRec) (c : List Char),
      parse c = none → jsTrim c ≠ [] → lastIs (jsTrim c) ',' = true →
      parse ((jsTrim c).dropLast ++ ['}']) = none →
      loadValidationModel (fun _ => ReadOutcome.content c) parse
        = (LoadResult.threw,
           [.readAttempt 0, .delay 100, .readAttempt 1, .delay 100, .readAttempt 2])) := by
  refine ⟨fun parse => ?_, fun parse => ?_, fun parse c hp hne hcomma => ?_,
    fun parse c r hp hne hcomma hrep => ?_, fun parse c hp hne hcomma hrep => ?_⟩
  · unfold loadValidationModel loadTry
    simp
  · unfold loadValidationModel loadTry loadLast
    simp [jsTrim]
  · unfold loadValidationModel loadTry loadLast
    simp [hp, hne, hcomma]
  · unfold loadValidationModel loadTry loadLast
    simp [hp, hne, hcomma, hrep]
  · unfold loadValidationModel loadTry loadLast
    simp [hp, hne, hcomma, hrep]

/-- C4 witness: the amended theorem applied at (a) a missing file, (b) a
persistently empty file, (c) persistently unparseable content `"x\x7d"`
(which ends in `}`, so exhaustion throws the transient error), (d) content
`"x,"` with a parser that accepts the comma repair `"x\x7d"` (the repaired
record is returned), and (e) content `"x,"` whose repair still fails to
parse (the transient error is thrown). -/
theorem loadValidation_retry_spec_witness :
    (loadValidationModel (fun _ => ReadOutcome.enoent) noParse
        = (.notFound, [.readAttempt 0])) ∧
    (loadValidationModel (fun _ => ReadOutcome.content []) noParse
        = (.notFound,
           [.readAttempt 0, .delay 100, .readAttempt 1, .delay 100, .readAttempt 2])) ∧
    (noParse "x\x7d".toList = none ∧ jsTrim "x\x7d".toList ≠ [] ∧
      lastIs (jsTrim "x\x7d".toList) ',' = false ∧
      loadValidationModel (fun _ => ReadOutcome.content "x\x7d".toList) noParse
        = (LoadResult.threw,
           [.readAttempt 0, .delay 100, .readAttempt 1, .delay 100, .readAttempt 2])) ∧
    (parseRepair "x,".toList = none ∧ jsTrim "x,".toList ≠ [] ∧
      lastIs (jsTrim "x,".toList) ',' = true ∧
      parseRepair ((jsTrim "x,".toList).dropLast ++ ['}']) = some rec0 ∧
      loadValidationModel (fun _ => ReadOutcome.content "x,".toList) parseRepair
        = (LoadResult.ok rec0,
           [.readAttempt 0, .delay 100, .readAttempt 1, .delay 100, .readAttempt 2])) ∧
    (noParse "x,".toList = none ∧
      parseRepair ((jsTrim "x,".toList).dropLast ++ ['}']) = some rec0 ∧
      noParse ((jsTrim "x,".toList).dropLast ++ ['}']) = none ∧
      loadValidationModel (fun _ => ReadOutcome.content "x,".toList) noParse
        = (LoadResult.threw,
           [.readAttempt 0, .delay 100, .readAttempt 1, .delay 100, .readAttempt 2])) := by
  refine ⟨loadValidation_retry_spec.1 noParse, loadValidation_retry_spec.2.1 noParse,
    ⟨rfl, by simp [jsTrim, isJsWs], by simp [jsTrim, isJsWs, lastIs], ?_⟩,
    ⟨by simp [parseRepair], by simp [jsTrim, isJsWs],
      by simp [jsTrim, isJsWs, lastIs], by simp [jsTrim, isJsWs, parseRepair], ?_⟩,
    ⟨rfl, by simp [jsTrim, isJsWs, parseRepair], rfl, ?_⟩⟩
  · have h := loadValidation_retry_spec.2.2.1 noParse "x\x7d".toList rfl
      (by simp [jsTrim, isJsWs]) (by simp [jsTrim, isJsWs, lastIs])
    simpa [jsTrim, isJsWs, lastIs] using h
  · exact loadValidation_retry_spec.2.2.2.1 parseRepair "x,".toList rec0
      (by simp [parseRepair]) (by simp [jsTrim, isJsWs])
      (by simp [jsTrim, isJsWs, lastIs]) (by simp [jsTrim, isJsWs, parseRepair])
  · exact loadValidation_retry_spec.2.2.2.2 noParse "x,".toList rfl
      (by simp [jsTrim, isJsWs]) (by simp [jsTrim, isJsWs, lastIs]) rfl

end IValidate

namespace IValidate

/-! ## Pipeline projection lemmas -/

theorem steps_updateStepStatusModel (st : PipeSt) (n : ℕ) (status : StepStatus)
    (desc : Option String) :
    (updateStepStatusModel st n status desc).steps
      = st.steps.map (fun s =>
          if s.step = n then
            { s with
              status := status,
              description :=
                match desc with
                | some d => if d = "" then s.description else d
                | none => s.description }
          else s) := by
  cases desc <;>
    · unfold updateStepStatusModel
      dsimp only
      split <;> rfl

theorem sketch_map_update (l : List PStep) (n : ℕ) (status : StepStatus) (D : PStep → String) :
    sketch (l.map (fun s =>
        if s.step = n then { s with status := status, description := D s } else s))
      = skUpdate n status (sketch l) := by
  induction l with
  | nil => rfl
  | cons h t ih =>
    by_cases hs : h.step = n <;>
      simp [sketch, skUpdate, skProj, hs, List.map_cons] at ih ⊢ <;>
      simpa [sketch, skUpdate] using ih

theorem sketch_updateStepStatusModel (st : PipeSt) (n : ℕ) (status : StepStatus)
    (desc : Option String) :
    sketch (updateStepStatusModel st n status desc).steps
      = skUpdate n status (sketch st.steps) := by
  rw [steps_updateStepStatusModel]
  exact sketch_map_update st.steps n status _

theorem find?_processing_sketch (l : List PStep) :
    (sketch l).find? (fun t => decide (t.2.2 = StepStatus.processing))
      = (l.find? (fun s => decide (s.status = StepStatus.processing))).map skProj := by
  induction l with
  | nil => rfl
  | cons h t ih =>
    by_cases hp : h.status = StepStatus.processing <;>
      simp [sketch, skProj, List.find?, hp] at ih ⊢ <;>
      simpa [sketch, skProj] using ih

theorem find?_completed_sketch (l : List PStep) (n : ℕ) :
    (sketch l).find? (fun t => decide (t.2.2 = StepStatus.completed ∧ t.1 = n))
      = (l.find? (fun s => decide (s.status = StepStatus.completed ∧ s.step = n))).map skProj := by
  induction l with
  | nil => rfl
  | cons h t ih =>
    by_cases hp : h.status = StepStatus.completed ∧ h.step = n <;>
      simp [sketch, skProj, List.find?, hp] at ih ⊢ <;>
      simpa [sketch, skProj] using ih

theorem current_eq_skPersist (l : List PStep) (n : ℕ) :
    (((l.find? (fun s => decide (s.status = StepStatus.processing))).orElse
        (fun _ => l.find? (fun s => decide (s.status = StepStatus.completed ∧ s.step = n)))).map
      (fun s => s.progress)) = skPersist n (sketch l) := by
  unfold skPersist
  rw [find?_processing_sketch, find?_completed_sketch]
  cases h1 : l.find? (fun s => decide (s.status = StepStatus.processing)) <;>
    cases h2 : l.find? (fun s => decide (s.status = StepStatus.completed ∧ s.step = n)) <;>
      simp [Option.orElse, skProj]

theorem snaps_updateStepStatusModel (st : PipeSt) (n : ℕ) (status : StepStatus)
    (desc : Option String) :
    (updateStepStatusModel st n status desc).snaps.map (·.progress)
      = st.snaps.map (·.progress)
        ++ (skPersist n (skUpdate n status (sketch st.steps))).toList := by
  cases desc with
  | none =>
    rw [← sketch_map_update st.steps n status (fun s => s.description),
      ← current_eq_skPersist]
    unfold updateStepStatusModel
    dsimp only
    split
    next cs heq => rw [heq]; simp
    next heq => rw [heq]; simp
  | some d =>
    rw [← sketch_map_update st.steps n status
        (fun s => if d = "" then s.description else d),
      ← current_eq_skPersist]
    unfold updateStepStatusModel
    dsimp only
    split
    next cs heq => rw [heq]; simp
    next heq => rw [heq]; simp

theorem storedProgress_updateStepStatusModel (st : PipeSt) (n : ℕ) (status : StepStatus)
    (desc : Option String) :
    (updateStepStatusModel st n status desc).stored.progress
      = (skPersist n (skUpdate n status (sketch st.steps))).getD st.stored.progress := by
  cases desc with
  | none =>
    rw [← sketch_map_update st.steps n status (fun s => s.description),
      ← current_eq_skPersist]
    unfold updateStepStatusModel
    dsimp only
    split
    next cs heq => rw [heq]; simp
    next heq => rw [heq]; simp
  | some d =>
    rw [← sketch_map_update st.steps n status
        (fun s => if d = "" then s.description else d),
      ← current_eq_skPersist]
    unfold updateStepStatusModel
    dsimp only
    split
    next cs heq => rw [heq]; simp
    next heq => rw [heq]; simp

end IValidate

namespace IValidate

theorem find?_step_map (l : List PStep) (j : ℕ) (f : PStep → PStep)
    (hf : ∀ s, (f s).step = s.step) :
    (l.map f).find? (fun s => decide (s.step = j))
      = (l.find? (fun s => decide (s.step = j))).map f := by
  induction l with
  | nil => rfl
  | cons h t ih =>
    simp only [List.map_cons]
    by_cases hj : h.step = j
    · rw [List.find?_cons_of_pos _ (by simp [hf, hj]),
        List.find?_cons_of_pos _ (by simp [hj])]
      simp
    · rw [List.find?_cons_of_neg _ (by simp [hf, hj]),
        List.find?_cons_of_neg _ (by simp [hj])]
      exact ih

theorem stepUpdateFun_step (n : ℕ) (status : StepStatus) (D : PStep → String) (s : PStep) :
    ((fun s => if s.step = n then
        { s with status := status, description := D s } else s) s).step = s.step := by
  by_cases h : s.step = n <;> simp [h]

theorem stepStatus_updateStepStatusModel (st : PipeSt) (n : ℕ) (status : StepStatus)
    (desc : Option String) (j : ℕ) :
    stepStatus (updateStepStatusModel st n status desc).steps j
      = (stepStatus st.steps j).map (fun old => if j = n then status else old) := by
  rw [steps_updateStepStatusModel]
  unfold stepStatus
  rw [find?_step_map _ _ _ (by intro s; by_cases h : s.step = n <;> simp [h])]
  cases h : st.steps.find? (fun s => decide (s.step = j)) with
  | none => simp
  | some s =>
    have hs : s.step = j := by
      have h2 := List.find?_some h
      simpa using h2
    by_cases hj : j = n <;> simp [hs, hj]

theorem stepDesc_updateStepStatusModel (st : PipeSt) (n : ℕ) (status : StepStatus)
    (desc : Option String) (j : ℕ) :
    stepDesc (updateStepStatusModel st n status desc).steps j
      = (stepDesc st.steps j).map (fun old =>
          if j = n then
            match desc with
            | some d => if d = "" then old else d
            | none => old
          else old) := by
  rw [steps_updateStepStatusModel]
  unfold stepDesc
  rw [find?_step_map _ _ _ (by intro s; by_cases h : s.step = n <;> simp [h])]
  cases h : st.steps.find? (fun s => decide (s.step = j)) with
  | none => simp
  | some s =>
    have hs : s.step = j := by
      have h2 := List.find?_some h
      simpa using h2
    by_cases hj : j = n <;> simp [hs, hj]

theorem countP_failed_sketch (l : List PStep) :
    l.countP (fun s => decide (s.status = StepStatus.failed))
      = (sketch l).countP (fun t => decide (t.2.2 = StepStatus.failed)) := by
  unfold sketch
  rw [List.countP_map]
  rfl

theorem forallPending_sketch (l : List PStep) (k : ℕ) :
    (∀ s ∈ l, k < s.step → s.status = StepStatus.pending)
      ↔ (∀ t ∈ sketch l, k < t.1 → t.2.2 = StepStatus.pending) := by
  unfold sketch skProj
  simp

theorem sketch_initialSteps :
    sketch initialSteps =
      [(1, 15, .pending), (2, 35, .pending), (3, 55, .pending), (4, 75, .pending),
       (5, 75, .pending), (6, 80, .pending), (7, 85, .pending), (8, 90, .pending),
       (9, 95, .pending), (10, 100, .pending)] := by
  rfl

end IValidate

namespace IValidate

/-! ## Unfolding equations for `runActions` and `runPipelineModel` -/

theorem runActions_nil (st : PipeSt) : runActions [] st = (⟨true, none⟩, st) := rfl

theorem runActions_cons_error (n : ℕ) (m : String) (rest : List PAction) (st : PipeSt) :
    runActions (.runStep n (.error m) :: rest) st
      = failStep (updateStepStatusModel st n .processing none) n m := rfl

theorem runActions_cons_ok (n : ℕ) (sd : StepStatus × String) (rest : List PAction) (st : PipeSt) :
    runActions (.runStep n (.ok sd) :: rest) st
      = runActions rest
          (updateStepStatusModel (updateStepStatusModel st n .processing none) n sd.1 (some sd.2)) := rfl

theorem res_runPipelineModel (id : String) (ext : ExtCalls) :
    (runPipelineModel id ext).res = (executeModel ext (pipeInit id)).1 := by
  unfold runPipelineModel
  dsimp only
  split <;> rfl

theorem steps_runPipelineModel (id : String) (ext : ExtCalls) :
    (runPipelineModel id ext).steps = (executeModel ext (pipeInit id)).2.steps := by
  unfold runPipelineModel
  dsimp only
  split <;> rfl

theorem snaps_runPipelineModel (id : String) (ext : ExtCalls) :
    (runPipelineModel id ext).snaps
      = (executeModel ext (pipeInit id)).2.snaps ++ [(runPipelineModel id ext).finalRec] := by
  unfold runPipelineModel
  dsimp only
  split <;> rfl

theorem finalRec_progress_runPipelineModel (id : String) (ext : ExtCalls) :
    (runPipelineModel id ext).finalRec.progress
      = (executeModel ext (pipeInit id)).2.stored.progress := by
  unfold runPipelineModel
  dsimp only
  split <;> rfl

theorem finalRec_status_runPipelineModel (id : String) (ext : ExtCalls) :
    (runPipelineModel id ext).finalRec.status
      = (if (executeModel ext (pipeInit id)).1.success = true
         then RStatus.COMPLETED else RStatus.FAILED) := by
  unfold runPipelineModel
  dsimp only
  split <;> rfl

theorem finalRec_errorMessage_runPipelineModel_fail (id : String) (ext : ExtCalls)
    (h : (executeModel ext (pipeInit id)).1.success = false) :
    (runPipelineModel id ext).finalRec.errorMessage
      = some (match (executeModel ext (pipeInit id)).1.error with
          | some m => if m = "" then "Unknown pipeline error" else m
          | none => "Unknown pipeline error") := by
  unfold runPipelineModel
  dsimp only
  split
  next hc => rw [h] at hc; exact absurd hc (by simp)
  next hc => rfl

end IValidate

namespace IValidate

/-! ## Claim C5 -/

set_option maxHeartbeats 3000000 in
/-- C5: over every run (any combination of step-body outcomes), the sequence
of persisted record snapshots — the initial record followed by every
`updateValidation` write and the final terminal write — has monotonically
non-decreasing `progress`, and every persisted `progress` lies in `[0, 100]`. -/
theorem pipeline_progress_monotone (id : String) (ext : ExtCalls) :
    List.Chain' (· ≤ ·) ((runPipelineModel id ext).snaps.map (·.progress)) ∧
    ∀ p ∈ (runPipelineModel id ext).snaps.map (·.progress), 0 ≤ p ∧ p ≤ 100 := by
  obtain ⟨e1, e2, e4, e5, e6, e7, e8, e9⟩ := ext
  cases e1 with
  | error m =>
    refine ⟨?_, ?_⟩ <;>
      · rw [snaps_runPipelineModel]
        simp only [List.map_append, List.map_cons, List.map_nil,
          finalRec_progress_runPipelineModel]
        simp only [executeModel, actionsOf, Except.map, runActions_nil, runActions_cons_error,
          runActions_cons_ok, failStep, pipeInit]
        try dsimp only
        simp only [snaps_updateStepStatusModel, storedProgress_updateStepStatusModel,
          sketch_updateStepStatusModel, sketch_initialSteps, initialValidationRecord,
          List.map_cons, List.map_nil]
        simp [skUpdate, skPersist, List.find?, Option.orElse, List.chain'_cons]
  | ok k1 =>
    cases e2 with
    | error m =>
      refine ⟨?_, ?_⟩ <;>
        · rw [snaps_runPipelineModel]
          simp only [List.map_append, List.map_cons, List.map_nil,
          finalRec_progress_runPipelineModel]
          simp only [executeModel, actionsOf, Except.map, runActions_nil, runActions_cons_error,
            runActions_cons_ok, failStep, pipeInit]
          try dsimp only
          simp only [snaps_updateStepStatusModel, storedProgress_updateStepStatusModel,
            sketch_updateStepStatusModel, sketch_initialSteps, initialValidationRecord,
            List.map_cons, List.map_nil]
          simp [skUpdate, skPersist, List.find?, Option.orElse, List.chain'_cons]
    | ok rd =>
      cases e4 with
      | error m =>
        refine ⟨?_, ?_⟩ <;>
          · rw [snaps_runPipelineModel]
            simp only [List.map_append, List.map_cons, List.map_nil,
          finalRec_progress_runPipelineModel]
            simp only [executeModel, actionsOf, Except.map, runActions_nil, runActions_cons_error,
              runActions_cons_ok, failStep, pipeInit, step2Status, step2ProcessingResult]
            try dsimp only
            simp only [snaps_updateStepStatusModel, storedProgress_updateStepStatusModel,
              sketch_updateStepStatusModel, sketch_initialSteps, initialValidationRecord,
              List.map_cons, List.map_nil]
            simp [skUpdate, skPersist, List.find?, Option.orElse, List.chain'_cons]
      | ok cd =>
        cases e5 with
        | error m =>
          refine ⟨?_, ?_⟩ <;>
            · rw [snaps_runPipelineModel]
              simp only [List.map_append, List.map_cons, List.map_nil,
          finalRec_progress_runPipelineModel]
              simp only [executeModel, actionsOf, Except.map, runActions_nil, runActions_cons_error,
                runActions_cons_ok, failStep, pipeInit, step2Status, step2ProcessingResult]
              try dsimp only
              simp only [snaps_updateStepStatusModel, storedProgress_updateStepStatusModel,
                sketch_updateStepStatusModel, sketch_initialSteps, initialValidationRecord,
                List.map_cons, List.map_nil]
              simp [skUpdate, skPersist, List.find?, Option.orElse, List.chain'_cons]
        | ok d5 =>
          cases e6 with
          | error m =>
            refine ⟨?_, ?_⟩ <;>
              · rw [snaps_runPipelineModel]
                simp only [List.map_append, List.map_cons, List.map_nil,
          finalRec_progress_runPipelineModel]
                simp only [executeModel, actionsOf, Except.map, runActions_nil, runActions_cons_error,
                  runActions_cons_ok, failStep, pipeInit, step2Status, step2ProcessingResult]
                try dsimp only
                simp only [snaps_updateStepStatusModel, storedProgress_updateStepStatusModel,
                  sketch_updateStepStatusModel, sketch_initialSteps, initialValidationRecord,
                  List.map_cons, List.map_nil]
                simp [skUpdate, skPersist, List.find?, Option.orElse, List.chain'_cons]
          | ok d6 =>
            cases e7 with
            | error m =>
              refine ⟨?_, ?_⟩ <;>
                · rw [snaps_runPipelineModel]
                  simp only [List.map_append, List.map_cons, List.map_nil,
          finalRec_progress_runPipelineModel]
                  simp only [executeModel, actionsOf, Except.map, runActions_nil,
                    runActions_cons_error, runActions_cons_ok, failStep, pipeInit,
                    step2Status, step2ProcessingResult]
                  try dsimp only
                  simp only [snaps_updateStepStatusModel, storedProgress_updateStepStatusModel,
                    sketch_updateStepStatusModel, sketch_initialSteps, initialValidationRecord,
                    List.map_cons, List.map_nil]
                  simp [skUpdate, skPersist, List.find?, Option.orElse, List.chain'_cons]
            | ok d7 =>
              cases e8 with
              | error m =>
                refine ⟨?_, ?_⟩ <;>
                  · rw [snaps_runPipelineModel]
                    simp only [List.map_append, List.map_cons, List.map_nil,
          finalRec_progress_runPipelineModel]
                    simp only [executeModel, actionsOf, Except.map, runActions_nil,
                      runActions_cons_error, runActions_cons_ok, failStep, pipeInit,
                      step2Status, step2ProcessingResult]
                    try dsimp only
                    simp only [snaps_updateStepStatusModel, storedProgress_updateStepStatusModel,
                      sketch_updateStepStatusModel, sketch_initialSteps, initialValidationRecord,
                      List.map_cons, List.map_nil]
                    simp [skUpdate, skPersist, List.find?, Option.orElse, List.chain'_cons]
              | ok d8 =>
                cases e9 with
                | error m =>
                  refine ⟨?_, ?_⟩ <;>
                    · rw [snaps_runPipelineModel]
                      simp only [List.map_append, List.map_cons, List.map_nil,
          finalRec_progress_runPipelineModel]
                      simp only [executeModel, actionsOf, Except.map, runActions_nil,
                        runActions_cons_error, runActions_cons_ok, failStep, pipeInit,
                        step2Status, step2ProcessingResult]
                      try dsimp only
                      simp only [snaps_updateStepStatusModel, storedProgress_updateStepStatusModel,
                        sketch_updateStepStatusModel, sketch_initialSteps, initialValidationRecord,
                        List.map_cons, List.map_nil]
                      simp [skUpdate, skPersist, List.find?, Option.orElse, List.chain'_cons]
                | ok p9 =>
                  refine ⟨?_, ?_⟩ <;>
                    · rw [snaps_runPipelineModel]
                      simp only [List.map_append, List.map_cons, List.map_nil,
          finalRec_progress_runPipelineModel]
                      simp only [executeModel, actionsOf, Except.map, runActions_nil,
                        runActions_cons_error, runActions_cons_ok, failStep, pipeInit,
                        step2Status, step2ProcessingResult]
                      try dsimp only
                      simp only [snaps_updateStepStatusModel, storedProgress_updateStepStatusModel,
                        sketch_updateStepStatusModel, sketch_initialSteps, initialValidationRecord,
                        List.map_cons, List.map_nil]
                      simp [skUpdate, skPersist, List.find?, Option.orElse, List.chain'_cons]

end IValidate

namespace IValidate

/-! ## Claim C2 -/

set_option maxHeartbeats 4000000 in
set_option maxRecDepth 8000 in
/-- C2: if any step body throws during `execute`, the throwing step's record
is marked `failed` carrying the captured (non-empty) error message, no later
step leaves `pending`, exactly one step record ends `failed`, the run record
is persisted with `status = FAILED` and the non-empty `errorMessage`, and
`execute` returns a failure result instead of letting the exception escape
(`runActions` is total and its result carries the message). -/
theorem pipeline_step_failure_aborts (id : String) (ext : ExtCalls) (k : ℕ) (m : String)
    (hfail : failsAt ext = some (k, m)) (hm : m ≠ "") :
    (runPipelineModel id ext).res = ⟨false, some m⟩ ∧
    stepStatus (runPipelineModel id ext).steps k = some .failed ∧
    stepDesc (runPipelineModel id ext).steps k = some m ∧
    (∀ s ∈ (runPipelineModel id ext).steps, k < s.step → s.status = .pending) ∧
    (runPipelineModel id ext).steps.countP (fun s => decide (s.status = .failed)) = 1 ∧
    (runPipelineModel id ext).finalRec.status = .FAILED ∧
    (runPipelineModel id ext).finalRec.errorMessage = some m := by
  obtain ⟨e1, e2, e4, e5, e6, e7, e8, e9⟩ := ext
  cases e1 with
  | error m1 =>
    simp only [failsAt, Option.some.injEq, Prod.mk.injEq] at hfail
    obtain ⟨hk, hm2⟩ := hfail
    subst hk
    subst hm2
    refine ⟨?_, ?_, ?_, ?_, ?_, ?_, ?_⟩ <;>
      first
      | · simp only [res_runPipelineModel, steps_runPipelineModel,
              finalRec_status_runPipelineModel, finalRec_errorMessage_runPipelineModel_fail,
              executeModel, actionsOf, Except.map, runActions_nil, runActions_cons_error,
              runActions_cons_ok, failStep, pipeInit, step2Status, step2ProcessingResult,
              stepStatus_updateStepStatusModel, stepDesc_updateStepStatusModel,
              sketch_updateStepStatusModel, countP_failed_sketch, sketch_initialSteps, hm]
          try simp [skUpdate, skPersist, sketch, skProj, stepStatus, stepDesc,
              initialSteps, List.find?, Option.orElse, hm]
          done
      | · rw [steps_runPipelineModel, forallPending_sketch]
          simp only [res_runPipelineModel, steps_runPipelineModel,
              finalRec_status_runPipelineModel, finalRec_errorMessage_runPipelineModel_fail,
              executeModel, actionsOf, Except.map, runActions_nil, runActions_cons_error,
              runActions_cons_ok, failStep, pipeInit, step2Status, step2ProcessingResult,
              stepStatus_updateStepStatusModel, stepDesc_updateStepStatusModel,
              sketch_updateStepStatusModel, countP_failed_sketch, sketch_initialSteps, hm]
          try simp [skUpdate, skPersist, sketch, skProj, stepStatus, stepDesc,
              initialSteps, List.find?, Option.orElse, hm]
          done
  | ok x1 =>
    cases e2 with
    | error m2 =>
      simp only [failsAt, Option.some.injEq, Prod.mk.injEq] at hfail
      obtain ⟨hk, hm2⟩ := hfail
      subst hk
      subst hm2
      refine ⟨?_, ?_, ?_, ?_, ?_, ?_, ?_⟩ <;>
        first
        | · simp only [res_runPipelineModel, steps_runPipelineModel,
                finalRec_status_runPipelineModel, finalRec_errorMessage_runPipelineModel_fail,
                executeModel, actionsOf, Except.map, runActions_nil, runActions_cons_error,
                runActions_cons_ok, failStep, pipeInit, step2Status, step2ProcessingResult,
                stepStatus_updateStepStatusModel, stepDesc_updateStepStatusModel,
                sketch_updateStepStatusModel, countP_failed_sketch, sketch_initialSteps, hm]
            try simp [skUpdate, skPersist, sketch, skProj, stepStatus, stepDesc, initialSteps,
                List.find?, Option.orElse, hm]
            done
        | · rw [steps_runPipelineModel, forallPending_sketch]
            simp only [res_runPipelineModel, steps_runPipelineModel,
                finalRec_status_runPipelineModel, finalRec_errorMessage_runPipelineModel_fail,
                executeModel, actionsOf, Except.map, runActions_nil, runActions_cons_error,
                runActions_cons_ok, failStep, pipeInit, step2Status, step2ProcessingResult,
                stepStatus_updateStepStatusModel, stepDesc_updateStepStatusModel,
                sketch_updateStepStatusModel, countP_failed_sketch, sketch_initialSteps, hm]
            try simp [skUpdate, skPersist, sketch, skProj, stepStatus, stepDesc, initialSteps,
                List.find?, Option.orElse, hm]
            done
    | ok x2 =>
      cases e4 with
      | error m3 =>
        simp only [failsAt, Option.some.injEq, Prod.mk.injEq] at hfail
        obtain ⟨hk, hm2⟩ := hfail
        subst hk
        subst hm2
        refine ⟨?_, ?_, ?_, ?_, ?_, ?_, ?_⟩ <;>
          first
          | · simp only [res_runPipelineModel, steps_runPipelineModel,
                  finalRec_status_runPipelineModel, finalRec_errorMessage_runPipelineModel_fail,
                  executeModel, actionsOf, Except.map, runActions_nil, runActions_cons_error,
                  runActions_cons_ok, failStep, pipeInit, step2Status, step2ProcessingResult,
                  stepStatus_updateStepStatusModel, stepDesc_updateStepStatusModel,
                  sketch_updateStepStatusModel, countP_failed_sketch, sketch_initialSteps, hm]
              try simp [skUpdate, skPersist, sketch, skProj, stepStatus, stepDesc, initialSteps,
                  List.find?, Option.orElse, hm]
              done
          | · rw [steps_runPipelineModel, forallPending_sketch]
              simp only [res_runPipelineModel, steps_runPipelineModel,
                  finalRec_status_runPipelineModel, finalRec_errorMessage_runPipelineModel_fail,
                  executeModel, actionsOf, Except.map, runActions_nil, runActions_cons_error,
                  runActions_cons_ok, failStep, pipeInit, step2Status, step2ProcessingResult,
                  stepStatus_updateStepStatusModel, stepDesc_updateStepStatusModel,
                  sketch_updateStepStatusModel, countP_failed_sketch, sketch_initialSteps, hm]
              try simp [skUpdate, skPersist, sketch, skProj, stepStatus, stepDesc, initialSteps,
                  List.find?, Option.orElse, hm]
              done
      | ok x3 =>
        cases e5 with
        | error m4 =>
          simp only [failsAt, Option.some.injEq, Prod.mk.injEq] at hfail
          obtain ⟨hk, hm2⟩ := hfail
          subst hk
          subst hm2
          refine ⟨?_, ?_, ?_, ?_, ?_, ?_, ?_⟩ <;>
            first
            | · simp only [res_runPipelineModel, steps_runPipelineModel,
                    finalRec_status_runPipelineModel, finalRec_errorMessage_runPipelineModel_fail,
                    executeModel, actionsOf, Except.map, runActions_nil, runActions_cons_error,
                    runActions_cons_ok, failStep, pipeInit, step2Status, step2ProcessingResult,
                    stepStatus_updateStepStatusModel, stepDesc_updateStepStatusModel,
                    sketch_updateStepStatusModel, countP_failed_sketch, sketch_initialSteps, hm]
                try simp [skUpdate, skPersist, sketch, skProj, stepStatus, stepDesc, initialSteps,
                    List.find?, Option.orElse, hm]
                done
            | · rw [steps_runPipelineModel, forallPending_sketch]
                simp only [res_runPipelineModel, steps_runPipelineModel,
                    finalRec_status_runPipelineModel, finalRec_errorMessage_runPipelineModel_fail,
                    executeModel, actionsOf, Except.map, runActions_nil, runActions_cons_error,
                    runActions_cons_ok, failStep, pipeInit, step2Status, step2ProcessingResult,
                    stepStatus_updateStepStatusModel, stepDesc_updateStepStatusModel,
                    sketch_updateStepStatusModel, countP_failed_sketch, sketch_initialSteps, hm]
                try simp [skUpdate, skPersist, sketch, skProj, stepStatus, stepDesc, initialSteps,
                    List.find?, Option.orElse, hm]
                done
        | ok x4 =>
          cases e6 with
          | error m5 =>
            simp only [failsAt, Option.some.injEq, Prod.mk.injEq] at hfail
            obtain ⟨hk, hm2⟩ := hfail
            subst hk
            subst hm2
            refine ⟨?_, ?_, ?_, ?_, ?_, ?_, ?_⟩ <;>
              first
              | · simp only [res_runPipelineModel, steps_runPipelineModel,
                      finalRec_status_runPipelineModel, finalRec_errorMessage_runPipelineModel_fail,
                      executeModel, actionsOf, Except.map, runActions_nil, runActions_cons_error,
                      runActions_cons_ok, failStep, pipeInit, step2Status, step2ProcessingResult,
                      stepStatus_updateStepStatusModel, stepDesc_updateStepStatusModel,
                      sketch_updateStepStatusModel, countP_failed_sketch, sketch_initialSteps, hm]
                  try simp [skUpdate, skPersist, sketch, skProj, stepStatus, stepDesc, initialSteps,
                      List.find?, Option.orElse, hm]
                  done
              | · rw [steps_runPipelineModel, forallPending_sketch]
                  simp only [res_runPipelineModel, steps_runPipelineModel,
                      finalRec_status_runPipelineModel, finalRec_errorMessage_runPipelineModel_fail,
                      executeModel, actionsOf, Except.map, runActions_nil, runActions_cons_error,
                      runActions_cons_ok, failStep, pipeInit, step2Status, step2ProcessingResult,
                      stepStatus_updateStepStatusModel, stepDesc_updateStepStatusModel,
                      sketch_updateStepStatusModel, countP_failed_sketch, sketch_initialSteps, hm]
                  try simp [skUpdate, skPersist, sketch, skProj, stepStatus, stepDesc, initialSteps,
                      List.find?, Option.orElse, hm]
                  done
          | ok x5 =>
            cases e7 with
            | error m6 =>
              simp only [failsAt, Option.some.injEq, Prod.mk.injEq] at hfail
              obtain ⟨hk, hm2⟩ := hfail
              subst hk
              subst hm2
              refine ⟨?_, ?_, ?_, ?_, ?_, ?_, ?_⟩ <;>
                first
                | · simp only [res_runPipelineModel, steps_runPipelineModel,
                        finalRec_status_runPipelineModel, finalRec_errorMessage_runPipelineModel_fail,
                        executeModel, actionsOf, Except.map, runActions_nil, runActions_cons_error,
                        runActions_cons_ok, failStep, pipeInit, step2Status, step2ProcessingResult,
                        stepStatus_updateStepStatusModel, stepDesc_updateStepStatusModel,
                        sketch_updateStepStatusModel, countP_failed_sketch, sketch_initialSteps, hm]
                    try simp [skUpdate, skPersist, sketch, skProj, stepStatus, stepDesc, initialSteps,
                        List.find?, Option.orElse, hm]
                    done
                | · rw [steps_runPipelineModel, forallPending_sketch]
                    simp only [res_runPipelineModel, steps_runPipelineModel,
                        finalRec_status_runPipelineModel, finalRec_errorMessage_runPipelineModel_fail,
                        executeModel, actionsOf, Except.map, runActions_nil, runActions_cons_error,
                        runActions_cons_ok, failStep, pipeInit, step2Status, step2ProcessingResult,
                        stepStatus_updateStepStatusModel, stepDesc_updateStepStatusModel,
                        sketch_updateStepStatusModel, countP_failed_sketch, sketch_initialSteps, hm]
                    try simp [skUpdate, skPersist, sketch, skProj, stepStatus, stepDesc, initialSteps,
                        List.find?, Option.orElse, hm]
                    done
            | ok x6 =>
              cases e8 with
              | error m7 =>
                simp only [failsAt, Option.some.injEq, Prod.mk.injEq] at hfail
                obtain ⟨hk, hm2⟩ := hfail
                subst hk
                subst hm2
                refine ⟨?_, ?_, ?_, ?_, ?_, ?_, ?_⟩ <;>
                  first
                  | · simp only [res_runPipelineModel, steps_runPipelineModel,
                          finalRec_status_runPipelineModel, finalRec_errorMessage_runPipelineModel_fail,
                          executeModel, actionsOf, Except.map, runActions_nil, runActions_cons_error,
                          runActions_cons_ok, failStep, pipeInit, step2Status, step2ProcessingResult,
                          stepStatus_updateStepStatusModel, stepDesc_updateStepStatusModel,
                          sketch_updateStepStatusModel, countP_failed_sketch, sketch_initialSteps, hm]
                      try simp [skUpdate, skPersist, sketch, skProj, stepStatus, stepDesc, initialSteps,
                          List.find?, Option.orElse, hm]
                      done
                  | · rw [steps_runPipelineModel, forallPending_sketch]
                      simp only [res_runPipelineModel, steps_runPipelineModel,
                          finalRec_status_runPipelineModel, finalRec_errorMessage_runPipelineModel_fail,
                          executeModel, actionsOf, Except.map, runActions_nil, runActions_cons_error,
                          runActions_cons_ok, failStep, pipeInit, step2Status, step2ProcessingResult,
                          stepStatus_updateStepStatusModel, stepDesc_updateStepStatusModel,
                          sketch_updateStepStatusModel, countP_failed_sketch, sketch_initialSteps, hm]
                      try simp [skUpdate, skPersist, sketch, skProj, stepStatus, stepDesc, initialSteps,
                          List.find?, Option.orElse, hm]
                      done
              | ok x7 =>
                cases e9 with
                | error m8 =>
                  simp only [failsAt, Option.some.injEq, Prod.mk.injEq] at hfail
                  obtain ⟨hk, hm2⟩ := hfail
                  subst hk
                  subst hm2
                  refine ⟨?_, ?_, ?_, ?_, ?_, ?_, ?_⟩ <;>
                    first
                    | · simp only [res_runPipelineModel, steps_runPipelineModel,
                            finalRec_status_runPipelineModel, finalRec_errorMessage_runPipelineModel_fail,
                            executeModel, actionsOf, Except.map, runActions_nil, runActions_cons_error,
                            runActions_cons_ok, failStep, pipeInit, step2Status, step2ProcessingResult,
                            stepStatus_updateStepStatusModel, stepDesc_updateStepStatusModel,
                            sketch_updateStepStatusModel, countP_failed_sketch, sketch_initialSteps, hm]
                        try simp [skUpdate, skPersist, sketch, skProj, stepStatus, stepDesc, initialSteps,
                            List.find?, Option.orElse, hm]
                        done
                    | · rw [steps_runPipelineModel, forallPending_sketch]
                        simp only [res_runPipelineModel, steps_runPipelineModel,
                            finalRec_status_runPipelineModel, finalRec_errorMessage_runPipelineModel_fail,
                            executeModel, actionsOf, Except.map, runActions_nil, runActions_cons_error,
                            runActions_cons_ok, failStep, pipeInit, step2Status, step2ProcessingResult,
                            stepStatus_updateStepStatusModel, stepDesc_updateStepStatusModel,
                            sketch_updateStepStatusModel, countP_failed_sketch, sketch_initialSteps, hm]
                        try simp [skUpdate, skPersist, sketch, skProj, stepStatus, stepDesc, initialSteps,
                            List.find?, Option.orElse, hm]
                        done
                | ok x8 =>
                  -- all step bodies succeeded: contradicts hfail
                  simp only [failsAt] at hfail
                  exact Option.noConfusion hfail

end IValidate

namespace IValidate

/-! ## Claim C2 witness -/

/-- C2 witness: the theorem applied to a run whose first step body throws
`GEMINI_API_KEY not configured`. -/
theorem pipeline_step_failure_aborts_witness :
    failsAt extFail1 = some (1, "GEMINI_API_KEY not configured") ∧
    "GEMINI_API_KEY not configured" ≠ "" ∧
    ((runPipelineModel "val_1" extFail1).res = ⟨false, some "GEMINI_API_KEY not configured"⟩ ∧
     stepStatus (runPipelineModel "val_1" extFail1).steps 1 = some .failed ∧
     stepDesc (runPipelineModel "val_1" extFail1).steps 1 = some "GEMINI_API_KEY not configured" ∧
     (∀ s ∈ (runPipelineModel "val_1" extFail1).steps, 1 < s.step → s.status = .pending) ∧
     (runPipelineModel "val_1" extFail1).steps.countP (fun s => decide (s.status = .failed)) = 1 ∧
     (runPipelineModel "val_1" extFail1).finalRec.status = .FAILED ∧
     (runPipelineModel "val_1" extFail1).finalRec.errorMessage = some "GEMINI_API_KEY not configured") :=
  ⟨rfl, by decide,
   pipeline_step_failure_aborts "val_1" extFail1 1 "GEMINI_API_KEY not configured" rfl (by decide)⟩

/-! ## Claim C6 -/

/-- C6 counterexample to uniqueness: step 3 (sentiment derivation) also
continues with zero data.  With no Reddit data at all, step 3's body returns
`success: true` with `dataPoints: 0` and the description
`No posts found - continuing with limited data analysis`, and the run
proceeds: in a run where step 2 found zero discussions, steps 3 and 4 are both
attempted and completed.  So the discussion-search step is *not* the only
step with a zero-data continuation policy. -/
theorem step3_zero_data_continuation_ce :
    step3ProcessingResult zeroC1 = ⟨true, 0⟩ ∧
    step3Desc zeroC1 = "No posts found - continuing with limited data analysis" ∧
    stepStatus (runPipelineModel "val_1" extOkZero).steps 3 = some .completed ∧
    stepStatus (runPipelineModel "val_1" extOkZero).steps 4 = some .completed := by
  refine ⟨rfl, rfl, ?_, ?_⟩ <;>
    · simp only [steps_runPipelineModel, executeModel, actionsOf, extOkZero, Except.map,
        runActions_nil, runActions_cons_error, runActions_cons_ok, failStep, pipeInit,
        step2Status, step2ProcessingResult, stepStatus_updateStepStatusModel,
        sketch_updateStepStatusModel, sketch_initialSteps]
      simp [stepStatus, initialSteps, List.find?]

/-- C6 (amended): the discussion-search step (step 2) reports `success = true`
even when its search finds zero discussions, and the pipeline continues to
subsequent steps (step 3 always completes once reached) rather than aborting;
however it is not the only step with a zero-data continuation policy — step 3
shares it (see the counterexample). -/
theorem step2_zero_data_continuation (id : String) (ext : ExtCalls) (k1 : K1Data)
    (rd : RedditInsight) (h1 : ext.e1 = .ok k1) (h2 : ext.e2 = .ok rd)
    (hz : mentionsOf rd = 0) :
    (step2ProcessingResult rd).success = true ∧
    step2Status rd = .completed ∧
    stepStatus (runPipelineModel id ext).steps 2 = some .completed ∧
    stepStatus (runPipelineModel id ext).steps 3 = some .completed := by
  obtain ⟨e1, e2, e4, e5, e6, e7, e8, e9⟩ := ext
  dsimp only at h1 h2
  subst h1
  subst h2
  cases e4 with
  | error m4 =>
    refine ⟨rfl, rfl, ?_, ?_⟩ <;>
      · simp only [steps_runPipelineModel, executeModel, actionsOf, Except.map,
          runActions_nil, runActions_cons_error, runActions_cons_ok, failStep, pipeInit,
          step2Status, step2ProcessingResult, stepStatus_updateStepStatusModel,
          sketch_updateStepStatusModel, sketch_initialSteps]
        simp [stepStatus, initialSteps, List.find?]
  | ok x4 =>
    cases e5 with
    | error m5 =>
      refine ⟨rfl, rfl, ?_, ?_⟩ <;>
        · simp only [steps_runPipelineModel, executeModel, actionsOf, Except.map,
            runActions_nil, runActions_cons_error, runActions_cons_ok, failStep, pipeInit,
            step2Status, step2ProcessingResult, stepStatus_updateStepStatusModel,
            sketch_updateStepStatusModel, sketch_initialSteps]
          simp [stepStatus, initialSteps, List.find?]
    | ok x5 =>
      cases e6 with
      | error m6 =>
        refine ⟨rfl, rfl, ?_, ?_⟩ <;>
          · simp only [steps_runPipelineModel, executeModel, actionsOf, Except.map,
              runActions_nil, runActions_cons_error, runActions_cons_ok, failStep, pipeInit,
              step2Status, step2ProcessingResult, stepStatus_updateStepStatusModel,
              sketch_updateStepStatusModel, sketch_initialSteps]
            simp [stepStatus, initialSteps, List.find?]
      | ok x6 =>
        cases e7 with
        | error m7 =>
          refine ⟨rfl, rfl, ?_, ?_⟩ <;>
            · simp only [steps_runPipelineModel, executeModel, actionsOf, Except.map,
                runActions_nil, runActions_cons_error, runActions_cons_ok, failStep, pipeInit,
                step2Status, step2ProcessingResult, stepStatus_updateStepStatusModel,
                sketch_updateStepStatusModel, sketch_initialSteps]
              simp [stepStatus, initialSteps, List.find?]
        | ok x7 =>
          cases e8 with
          | error m8 =>
            refine ⟨rfl, rfl, ?_, ?_⟩ <;>
              · simp only [steps_runPipelineModel, executeModel, actionsOf, Except.map,
                  runActions_nil, runActions_cons_error, runActions_cons_ok, failStep, pipeInit,
                  step2Status, step2ProcessingResult, stepStatus_updateStepStatusModel,
                  sketch_updateStepStatusModel, sketch_initialSteps]
                simp [stepStatus, initialSteps, List.find?]
          | ok x8 =>
            cases e9 with
            | error m9 =>
              refine ⟨rfl, rfl, ?_, ?_⟩ <;>
                · simp only [steps_runPipelineModel, executeModel, actionsOf, Except.map,
                    runActions_nil, runActions_cons_error, runActions_cons_ok, failStep, pipeInit,
                    step2Status, step2ProcessingResult, stepStatus_updateStepStatusModel,
                    sketch_updateStepStatusModel, sketch_initialSteps]
                  simp [stepStatus, initialSteps, List.find?]
            | ok x9 =>
              refine ⟨rfl, rfl, ?_, ?_⟩ <;>
                · simp only [steps_runPipelineModel, executeModel, actionsOf, Except.map,
                    runActions_nil, runActions_cons_error, runActions_cons_ok, failStep, pipeInit,
                    step2Status, step2ProcessingResult, stepStatus_updateStepStatusModel,
                    sketch_updateStepStatusModel, sketch_initialSteps]
                  simp [stepStatus, initialSteps, List.find?]

/-- C6 witness: the amended theorem applied at the all-success run with zero
discussions found. -/
theorem step2_zero_data_continuation_witness :
    extOkZero.e1 = .ok ⟨["a"], 3⟩ ∧ extOkZero.e2 = .ok zeroC1 ∧ mentionsOf zeroC1 = 0 ∧
    ((step2ProcessingResult zeroC1).success = true ∧
     step2Status zeroC1 = .completed ∧
     stepStatus (runPipelineModel "val_1" extOkZero).steps 2 = some .completed ∧
     stepStatus (runPipelineModel "val_1" extOkZero).steps 3 = some .completed) :=
  ⟨rfl, rfl, rfl,
   step2_zero_data_continuation "val_1" extOkZero ⟨["a"], 3⟩ zeroC1 rfl rfl rfl⟩

/-! ## Claim C10 -/

/-- C10 counterexample: the initial run record that `POST /api/validate/start`
persists has `status: 'PROCESSING'` (route line 43), not `PENDING` as the
claim states. -/
theorem initialRecord_status_processing_ce :
    (initialValidationRecord "val_1").status = RStatus.PROCESSING ∧
    RStatus.PROCESSING ≠ RStatus.PENDING ∧
    postTrace "val_1" = [.saveRecord (initialValidationRecord "val_1"),
      .startPipelineAsync "val_1", .respond 200] :=
  ⟨rfl, by decide, rfl⟩

/-- C10 (amended): for every accepted trigger request, the initial run record
— with status `PROCESSING` (not PENDING) and progress 0 — is persisted via the
record store strictly before the orchestrator is started asynchronously, and
the 200 response is produced after the detached start without awaiting
pipeline completion. -/
theorem postTrace_save_before_start (validationId : String) :
    (∃ i j, i < j ∧
      (postTrace validationId).get? i
        = some (.saveRecord (initialValidationRecord validationId)) ∧
      (postTrace validationId).get? j = some (.startPipelineAsync validationId)) ∧
    (initialValidationRecord validationId).status = RStatus.PROCESSING ∧
    (initialValidationRecord validationId).progress = 0 ∧
    (postTrace validationId).getLast? = some (.respond 200) :=
  ⟨⟨0, 1, by norm_num, rfl, rfl⟩, rfl, rfl, rfl⟩

end IValidate

namespace IValidate

/-! ## StructuredExtractor lemmas -/

theorem getLast?_cons_of_ne_nil {α : Type} (c : α) {l : List α} (h : l ≠ []) :
    (c :: l).getLast? = l.getLast? := by
  cases l with
  | nil => exact absurd rfl h
  | cons b bs => exact List.getLast?_cons_cons

theorem getLast?_drop {α : Type} :
    ∀ (l : List α) (k : ℕ), k < l.length → (l.drop k).getLast? = l.getLast? := by
  intro l
  induction l with
  | nil => intro k h; simp at h
  | cons c rest ih =>
    intro k hk
    cases k with
    | zero => simp
    | succ k2 =>
      simp only [List.drop_succ_cons]
      rw [ih k2 (by simp at hk; omega)]
      have hne : rest ≠ [] := by
        intro h
        subst h
        simp at hk
      rw [getLast?_cons_of_ne_nil c hne]

theorem stripTok_cons_ne (t0 : Char) (ts : List Char) (c : Char) (rest : List Char)
    (hc : c ≠ t0) : stripTok t0 ts (c :: rest) = c :: stripTok t0 ts rest := by
  rw [stripTok]
  rw [if_neg]
  intro h
  rw [List.isPrefixOf_iff_prefix] at h
  exact hc (List.cons_prefix_cons.mp h).1.symm

theorem prefix_of_append_last {tok l t : List Char} {C : Char}
    (hlast : l.getLast? = some C) (hC : C ∉ tok)
    (hpre : tok <+: (l ++ t)) : tok <+: l ∧ tok.length < l.length := by
  have hCl : C ∈ l := List.mem_of_mem_getLast? hlast
  rcases List.prefix_or_prefix_of_prefix hpre (List.prefix_append l t) with h | h
  · refine ⟨h, ?_⟩
    by_contra hlen
    push_neg at hlen
    have : tok = l := h.eq_of_length_le hlen
    exact hC (this ▸ hCl)
  · exact absurd (h.subset hCl) hC


theorem stripTok_append_aux (t0 : Char) (ts : List Char) (C : Char)
    (hC : C ∉ t0 :: ts) (hCn : C ≠ '\n') :
    ∀ (n : ℕ) (l t : List Char), l.length ≤ n → l.getLast? = some C →
      stripTok t0 ts (l ++ t) = stripTok t0 ts l ++ stripTok t0 ts t := by
  intro n
  induction n with
  | zero =>
    intro l t hl hlast
    cases l with
    | nil => simp at hlast
    | cons c rest => simp at hl
  | succ n ih =>
    intro l t hl hlast
    cases l with
    | nil => simp at hlast
    | cons c rest =>
      by_cases hpre : (t0 :: ts) <+: (c :: rest)
      · have hlt : ts.length < rest.length := by
          have h2 : (t0 :: ts) <+: ((c :: rest) ++ ([] : List Char)) := by
            simpa using hpre
          have := (prefix_of_append_last hlast hC h2).2
          simpa using this
        have hrne : rest ≠ [] := by
          intro h; subst h; simp at hlt
        have hrestLast : rest.getLast? = some C := by
          rw [← getLast?_cons_of_ne_nil c hrne]; exact hlast
        have hsplit : (rest ++ t).drop ts.length = rest.drop ts.length ++ t :=
          List.drop_append_of_le_length (le_of_lt hlt)
        cases hdrop : rest.drop ts.length with
        | nil =>
          have := congrArg List.length hdrop
          simp at this
          omega
        | cons a as =>
          have hlenAs : rest.length - ts.length = as.length + 1 := by
            have := congrArg List.length hdrop
            simpa using this
          have hlastAs : (a :: as).getLast? = some C := by
            rw [← hdrop, getLast?_drop rest ts.length hlt]
            exact hrestLast
          have hpre2 : (t0 :: ts).isPrefixOf (c :: (rest ++ t)) = true := by
            rw [List.isPrefixOf_iff_prefix]
            have : (c :: rest) ++ t = c :: (rest ++ t) := by simp
            exact this ▸ hpre.trans (List.prefix_append (c :: rest) t)
          have hpre1 : (t0 :: ts).isPrefixOf (c :: rest) = true := by
            rw [List.isPrefixOf_iff_prefix]; exact hpre
          rw [List.cons_append, stripTok, if_pos hpre2, stripTok, if_pos hpre1]
          rw [hsplit, hdrop]
          by_cases ha : a = '\n'
          · rw [if_pos (by simp [ha]), if_pos (by simp [ha])]
            have hd1 : (rest ++ t).drop (ts.length + 1) =
                rest.drop (ts.length + 1) ++ t :=
              List.drop_append_of_le_length (by omega)
            have hd2 : rest.drop (ts.length + 1) = as := by
              rw [← List.drop_drop, hdrop]
              simp
            rw [hd1, hd2]
            have hasne : as ≠ [] := by
              intro h
              subst h
              simp at hlastAs
              exact hCn (ha ▸ hlastAs.symm)
            have hlastAs2 : as.getLast? = some C := by
              rw [← getLast?_cons_of_ne_nil a hasne]; exact hlastAs
            exact ih as t (by simp at hl; omega) hlastAs2
          · rw [if_neg (by simp [ha]), if_neg (by simp [ha])]
            have := ih (a :: as) t (by simp at hl ⊢; omega) hlastAs
            simpa using this
      · have hnotapp : ¬ (t0 :: ts) <+: (c :: (rest ++ t)) := by
          intro h
          have : (t0 :: ts) <+: ((c :: rest) ++ t) := by simpa using h
          exact hpre (prefix_of_append_last hlast hC this).1
        have hb1 : ¬ (t0 :: ts).isPrefixOf (c :: (rest ++ t)) = true := by
          rw [List.isPrefixOf_iff_prefix]; exact hnotapp
        have hb2 : ¬ (t0 :: ts).isPrefixOf (c :: rest) = true := by
          rw [List.isPrefixOf_iff_prefix]; exact hpre
        rw [List.cons_append, stripTok, if_neg hb1, stripTok, if_neg hb2]
        simp only [List.cons_append, List.cons.injEq, true_and]
        cases rest with
        | nil =>
          simp [stripTok]
        | cons r rs =>
          exact ih (r :: rs) t (by simp at hl ⊢; omega)
            (by rw [← List.getLast?_cons_cons (a := c)]; exact hlast)

theorem stripTok_getLast_aux (t0 : Char) (ts : List Char) (C : Char)
    (hC : C ∉ t0 :: ts) (hCn : C ≠ '\n') :
    ∀ (n : ℕ) (l : List Char), l.length ≤ n → l.getLast? = some C →
      (stripTok t0 ts l).getLast? = some C := by
  intro n
  induction n with
  | zero =>
    intro l hl hlast
    cases l with
    | nil => simp at hlast
    | cons c rest => simp at hl
  | succ n ih =>
    intro l hl hlast
    cases l with
    | nil => simp at hlast
    | cons c rest =>
      by_cases hpre : (t0 :: ts) <+: (c :: rest)
      · have hlt : ts.length < rest.length := by
          have h2 : (t0 :: ts) <+: ((c :: rest) ++ ([] : List Char)) := by
            simpa using hpre
          have := (prefix_of_append_last hlast hC h2).2
          simpa using this
        have hrne : rest ≠ [] := by
          intro h; subst h; simp at hlt
        have hrestLast : rest.getLast? = some C := by
          rw [← getLast?_cons_of_ne_nil c hrne]; exact hlast
        cases hdrop : rest.drop ts.length with
        | nil =>
          have := congrArg List.length hdrop
          simp at this
          omega
        | cons a as =>
          have hlenAs : rest.length - ts.length = as.length + 1 := by
            have := congrArg List.length hdrop
            simpa using this
          have hlastAs : (a :: as).getLast? = some C := by
            rw [← hdrop, getLast?_drop rest ts.length hlt]
            exact hrestLast
          have hpre1 : (t0 :: ts).isPrefixOf (c :: rest) = true := by
            rw [List.isPrefixOf_iff_prefix]; exact hpre
          rw [stripTok, if_pos hpre1, hdrop]
          by_cases ha : a = '\n'
          · rw [if_pos (by simp [ha])]
            have hd2 : rest.drop (ts.length + 1) = as := by
              rw [← List.drop_drop, hdrop]
              simp
            rw [hd2]
            have hasne : as ≠ [] := by
              intro h
              subst h
              simp at hlastAs
              exact hCn (ha ▸ hlastAs.symm)
            have hlastAs2 : as.getLast? = some C := by
              rw [← getLast?_cons_of_ne_nil a hasne]; exact hlastAs
            exact ih as (by simp at hl; omega) hlastAs2
          · rw [if_neg (by simp [ha])]
            exact ih (a :: as) (by simp at hl ⊢; omega) hlastAs
      · have hb2 : ¬ (t0 :: ts).isPrefixOf (c :: rest) = true := by
          rw [List.isPrefixOf_iff_prefix]; exact hpre
        rw [stripTok, if_neg hb2]
        cases rest with
        | nil =>
          simp [stripTok]
          simp at hlast
          exact hlast
        | cons r rs =>
          have htail : (stripTok t0 ts (r :: rs)).getLast? = some C :=
            ih (r :: rs) (by simp at hl ⊢; omega)
              (by rw [← List.getLast?_cons_cons (a := c)]; exact hlast)
          have hne : stripTok t0 ts (r :: rs) ≠ [] := by
            intro h
            rw [h] at htail
            simp at htail
          rw [getLast?_cons_of_ne_nil c hne]
          exact htail


theorem stripJsonFence_append {l : List Char} (t : List Char)
    (h : l.getLast? = some '}') :
    stripJsonFence (l ++ t) = stripJsonFence l ++ stripJsonFence t :=
  stripTok_append_aux '`' ['`', '`', 'j', 's', 'o', 'n'] '}' (by decide) (by decide)
    l.length l t (le_refl _) h

theorem stripFence_append {l : List Char} (t : List Char)
    (h : l.getLast? = some '}') :
    stripFence (l ++ t) = stripFence l ++ stripFence t :=
  stripTok_append_aux '`' ['`', '`'] '}' (by decide) (by decide)
    l.length l t (le_refl _) h

theorem stripJsonFence_getLast {l : List Char} (h : l.getLast? = some '}') :
    (stripJsonFence l).getLast? = some '}' :=
  stripTok_getLast_aux '`' ['`', '`', 'j', 's', 'o', 'n'] '}' (by decide) (by decide)
    l.length l (le_refl _) h

theorem stripFence_getLast {l : List Char} (h : l.getLast? = some '}') :
    (stripFence l).getLast? = some '}' :=
  stripTok_getLast_aux '`' ['`', '`'] '}' (by decide) (by decide)
    l.length l (le_refl _) h

theorem stripJsonFence_pre (X : List Char) :
    stripJsonFence (['`', '`', '`', 'j', 's', 'o', 'n', '\n'] ++ X) =
      stripJsonFence X := by
  simp +decide [stripJsonFence, stripTok, List.isPrefixOf]

theorem stripJsonFence_post :
    stripJsonFence ['\n', '`', '`', '`'] = ['\n', '`', '`', '`'] := by
  simp +decide [stripJsonFence, stripTok, List.isPrefixOf]

theorem stripFence_post : stripFence ['\n', '`', '`', '`'] = ['\n'] := by
  simp +decide [stripFence, stripTok, List.isPrefixOf]

theorem jsTrim_eq_self {l : List Char}
    (h1 : ∀ c, l.head? = some c → isJsWs c = false)
    (h2 : ∀ c, l.getLast? = some c → isJsWs c = false) : jsTrim l = l := by
  unfold jsTrim
  have hd : l.dropWhile isJsWs = l := by
    cases l with
    | nil => rfl
    | cons c rest => simp [List.dropWhile_cons, h1 c rfl]
  rw [hd]
  have hr : l.reverse.dropWhile isJsWs = l.reverse := by
    cases hrev : l.reverse with
    | nil => rfl
    | cons c rest =>
      have hc : l.getLast? = some c := by
        rw [← List.head?_reverse, hrev]
        rfl
      simp [List.dropWhile_cons, h2 c hc]
  rw [hr, List.reverse_reverse]

theorem extractJson_braced {u : List Char} (h : u.getLast? = some '}') :
    extractJson ('{' :: u) = '{' :: u := by
  unfold extractJson
  simp only [List.dropWhile_cons]
  rw [if_neg (by simp)]
  dsimp only
  rw [if_pos (List.mem_of_mem_getLast? h)]
  unfold keepUpToLast
  cases hrev : u.reverse with
  | nil =>
    rw [List.reverse_eq_nil_iff] at hrev
    subst hrev
    simp at h
  | cons c rest =>
    have hc : c = '}' := by
      have := List.head?_reverse u
      rw [hrev, h] at this
      simpa using this
    subst hc
    rw [List.dropWhile_cons]
    rw [if_neg (by simp)]
    rw [← hrev, List.reverse_reverse]

theorem extractJson_braced_app {u : List Char} (h : u.getLast? = some '}') :
    extractJson (('{' :: u) ++ ['\n']) = '{' :: u := by
  unfold extractJson
  simp only [List.cons_append, List.dropWhile_cons]
  rw [if_neg (by simp)]
  dsimp only
  rw [if_pos (List.mem_append_left _ (List.mem_of_mem_getLast? h))]
  unfold keepUpToLast
  rw [List.reverse_append]
  simp only [List.reverse_cons, List.reverse_nil, List.nil_append, List.cons_append]
  rw [List.dropWhile_cons]
  rw [if_pos (by simp)]
  cases hrev : u.reverse with
  | nil =>
    rw [List.reverse_eq_nil_iff] at hrev
    subst hrev
    simp at h
  | cons c rest =>
    have hc : c = '}' := by
      have := List.head?_reverse u
      rw [hrev, h] at this
      simpa using this
    subst hc
    rw [List.dropWhile_cons]
    rw [if_neg (by simp)]
    rw [← hrev, List.reverse_reverse]


theorem getLast_braced (mid : List Char) :
    ('{' :: (mid ++ ['}'])).getLast? = some '}' := by
  show (('{' :: mid) ++ '}' :: []).getLast? = some '}'
  rw [List.getLast?_append_cons]
  rfl

theorem cleanupText_wrap (mid : List Char) :
    cleanupText (wrapMdFence ('{' :: (mid ++ ['}']))) =
      cleanupText ('{' :: (mid ++ ['}'])) := by
  have hjlast : ('{' :: (mid ++ ['}'])).getLast? = some '}' := getLast_braced mid
  have htrimW : jsTrim (wrapMdFence ('{' :: (mid ++ ['}']))) =
      wrapMdFence ('{' :: (mid ++ ['}'])) := by
    apply jsTrim_eq_self
    · intro c hc
      unfold wrapMdFence at hc
      simp at hc
      subst hc
      decide
    · intro c hc
      unfold wrapMdFence at hc
      rw [List.getLast?_append_cons] at hc
      simp at hc
      subst hc
      decide
  have htrimJ : jsTrim ('{' :: (mid ++ ['}'])) = '{' :: (mid ++ ['}']) := by
    apply jsTrim_eq_self
    · intro c hc
      simp at hc
      subst hc
      decide
    · intro c hc
      rw [hjlast] at hc
      simp at hc
      subst hc
      decide
  unfold cleanupText
  rw [htrimW, htrimJ]
  unfold wrapMdFence
  rw [List.append_assoc]
  rw [stripJsonFence_pre]
  rw [stripJsonFence_append _ hjlast, stripJsonFence_post]
  rw [stripFence_append _ (stripJsonFence_getLast hjlast), stripFence_post]
  have hW : stripJsonFence ('{' :: (mid ++ ['}'])) =
      '{' :: stripJsonFence (mid ++ ['}']) :=
    stripTok_cons_ne _ _ _ _ (by decide)
  have hU : stripFence (stripJsonFence ('{' :: (mid ++ ['}']))) =
      '{' :: stripFence (stripJsonFence (mid ++ ['}'])) := by
    rw [hW]
    exact stripTok_cons_ne _ _ _ _ (by decide)
  have hUlast := stripFence_getLast (stripJsonFence_getLast hjlast)
  rw [hU] at hUlast
  rw [hU]
  have hne : stripFence (stripJsonFence (mid ++ ['}'])) ≠ [] := by
    intro h
    rw [h] at hUlast
    simp at hUlast
  have hlast2 : (stripFence (stripJsonFence (mid ++ ['}']))).getLast? = some '}' := by
    rw [getLast?_cons_of_ne_nil '{' hne] at hUlast
    exact hUlast
  rw [extractJson_braced_app hlast2, extractJson_braced hlast2]



theorem ctlFix_not_ctl (x c : Char) (hc : c ∈ ctlFix x) :
    32 ≤ c.toNat ∧ c.toNat ≠ 127 := by
  unfold ctlFix at hc
  split_ifs at hc with h1 h2 h3 h4
  · simp at hc
    rcases hc with hc | hc <;> subst hc <;> decide
  · simp at hc
    rcases hc with hc | hc <;> subst hc <;> decide
  · simp at hc
    rcases hc with hc | hc <;> subst hc <;> decide
  · simp at hc
  · simp at hc
    subst hc
    push_neg at h4
    omega

/-! ## Claim C7 -/

/-- C7: fence-wrap invariance of the structured extractor.  For every payload
`mid`, `parseAIResponse` applied to the object text consisting of an opening
brace, `mid` and a closing brace wrapped in markdown ```json fences returns
exactly the same result as on the unwrapped text: the cleanup stage strips
the fence wrapper and the outermost-brace match recovers the identical span,
so every parse strategy sees the same sanitized input. -/
theorem parseAIResponse_fence_invariant (pr : JSPrims) (mid : List Char) :
    parseAIResponse pr (wrapMdFence ('{' :: (mid ++ ['}']))) =
      parseAIResponse pr ('{' :: (mid ++ ['}'])) := by
  unfold parseAIResponse
  rw [cleanupText_wrap]

/-! ## Claim C8 -/

/-- C8 counterexample: `sanitizeJSONString` does not strip trailing commas.
On the object text with a trailing comma before the closing brace the
function is the identity — every one of its passes (double-escape repairs,
string-literal re-escaping, null-byte removal, control-character handling)
leaves the comma in place, contradicting the claim that the sanitization
strategy strips trailing commas before closing brackets. -/
theorem sanitizeJSONString_trailing_comma_ce :
    sanitizeJSONString ['{', '"', 'a', '"', ':', ' ', '1', ',', '}'] =
      ['{', '"', 'a', '"', ':', ' ', '1', ',', '}'] := by
  simp +decide [sanitizeJSONString, replaceSub, escInStr, takeLit, escBody,
    escChar, ctlFix, List.isPrefixOf]

/-- C8 (amended): for every input text — in particular one whose JSON object
carries trailing commas or raw control characters inside string values —
`parseAIResponse` returns a parsed record rather than raising: if
`JSON.parse` rejects the sanitized text and both repair strategies, the
reconstruction strategy still returns a record (its catch clause yields the
fixed default), so the final throw is unreachable; and the sanitized text
contains no raw control characters (every character is at least 0x20 and is
not 0x7F).  Trailing commas are not removed by sanitization: inputs that
stay unparsable for `JSON.parse` succeed only through the reconstruction
fallback. -/
theorem parseAIResponse_always_ok (pr : JSPrims) (s : List Char) :
    (∃ r, parseAIResponse pr s = Except.ok r) ∧
      ∀ c ∈ sanitizeJSONString s, 32 ≤ c.toNat ∧ c.toNat ≠ 127 := by
  constructor
  · unfold parseAIResponse
    dsimp only
    cases h1 : pr.jsonParse (sanitizeJSONString (cleanupText s)) with
    | some r => exact ⟨r, rfl⟩
    | none =>
      cases h2 : pr.jsonParse (pr.fixQuotes (sanitizeJSONString (cleanupText s))) with
      | some r => exact ⟨r, rfl⟩
      | none =>
        cases h3 : pr.jsonParse (pr.escCtl (sanitizeJSONString (cleanupText s))) with
        | some r => exact ⟨r, rfl⟩
        | none =>
          exact ⟨reconstructJSON pr (sanitizeJSONString (cleanupText s)), rfl⟩
  · intro c hc
    unfold sanitizeJSONString at hc
    simp only [List.mem_flatMap] at hc
    obtain ⟨x, _, hx⟩ := hc
    exact ctlFix_not_ctl x c hx

/-- C8 witness: the amended theorem evaluated on the stub platform where
every `JSON.parse` call throws, at the trailing-comma object text. -/
theorem parseAIResponse_always_ok_witness :
    (∃ r, parseAIResponse noJsPrims ['{', ',', '}'] = Except.ok r) ∧
      ∀ c ∈ sanitizeJSONString ['{', ',', '}'], 32 ≤ c.toNat ∧ c.toNat ≠ 127 :=
  parseAIResponse_always_ok noJsPrims ['{', ',', '}']

end IValidate
